import Mathlib

/-!
# Verification of the ra_svn marshalling layer (marshal.c)

A shallow embedding of the wire-protocol framing codec and command
dispatcher of `marshal.c`.  Bytes are modelled as `Nat` (ASCII codes),
byte streams as `List Nat`, and the 64-bit unsigned arithmetic of
`apr_uint64_t` is made explicit with `% 2^64`.  Reading from the stream
models `readbuf_getchar` over the byte list: an empty list corresponds
to a zero-byte socket read (connection closed).  Loops of the C code
that are not structurally recursive are given an explicit fuel
parameter; every theorem quantifies over (or instantiates) sufficient
fuel, and running out of fuel is a distinguished error that the proofs
show never occurs on the inputs they consider.
-/

/-! ## Byte classification (ASCII), following marshal.c's use of
`svn_iswhitespace`, `apr_isdigit`, `apr_isalpha`, `apr_isalnum`. -/

/-- `svn_iswhitespace(c)`: space or newline. -/
def isWs (b : Nat) : Bool := b == 32 || b == 10

/-- `apr_isdigit(c)` for ASCII bytes. -/
def isDigit (b : Nat) : Bool := 48 ≤ b && b ≤ 57

/-- `apr_isalpha(c)` for ASCII bytes. -/
def isAlpha (b : Nat) : Bool := (65 ≤ b && b ≤ 90) || (97 ≤ b && b ≤ 122)

/-- `apr_isalnum(c)` for ASCII bytes. -/
def isAlnum (b : Nat) : Bool := isDigit b || isAlpha b

/-- A byte allowed in the tail of a word: `apr_isalnum(c) || c == '-'`. -/
def isWordTail (b : Nat) : Bool := isAlnum b || b == 45

/-- 2^64, the modulus of `apr_uint64_t` arithmetic. -/
def U64 : Nat := 18446744073709551616

/-- 2^63, the first value the legacy signed number formatter mangles. -/
def I64 : Nat := 9223372036854775808

/-! ## Decimal digits -/

/-- Little-endian decimal digits of `n`; the first argument is fuel
(`fuel ≥ n` is always enough since `n / 10 < n` for `n > 0`). -/
def natDigitsAux : Nat → Nat → List Nat
  | 0, _ => []
  | fuel + 1, n => if n = 0 then [] else n % 10 :: natDigitsAux fuel (n / 10)

/-- Little-endian decimal digits of `n` (`[]` for `0`). -/
def natDigits (n : Nat) : List Nat := natDigitsAux n n

/-- Value of a little-endian decimal digit list. -/
def decVal : List Nat → Nat
  | [] => 0
  | d :: t => d + 10 * decVal t

/-- ASCII decimal representation of `n`, most significant digit first,
as printed by `printf` for a nonnegative value (so `0` prints `"0"`). -/
def natToDec (n : Nat) : List Nat :=
  if n = 0 then [48] else ((natDigits n).map (fun d => d + 48)).reverse

/-! ## Item writers (svn_ra_svn_write_number / _string / _cstring / _word,
svn_ra_svn_start_list / end_list).  Each writer produces the byte
sequence the corresponding C function pushes through the write buffer. -/

/-- `svn_ra_svn_write_number`: prints the `apr_uint64_t` argument with the
signed conversion `%" APR_INT64_T_FMT "` followed by a space.  For
`n < 2^63` this is the plain decimal; for `n ≥ 2^63` the signed
formatter emits a minus sign and the two's-complement magnitude
`2^64 - n` (the overflow artifact noted in the C comment). -/
def writeNumber (n : Nat) : List Nat :=
  (if n < I64 then natToDec n else 45 :: natToDec (U64 - n)) ++ [32]

/-- `svn_ra_svn_write_string`: `<len>:<bytes> ` with the length printed
unsigned (`%" APR_SIZE_T_FMT "`). -/
def writeString (s : List Nat) : List Nat :=
  natToDec s.length ++ 58 :: (s ++ [32])

/-- Model of C `strlen`: the bytes before the first NUL. -/
def strlenPrefix (s : List Nat) : List Nat := s.takeWhile (fun b => b ≠ 0)

/-- `svn_ra_svn_write_cstring`: `"%" APR_SIZE_T_FMT ":%s "` — the length
is `strlen(s)`, so the bytes after an embedded NUL are dropped. -/
def writeCString (s : List Nat) : List Nat := writeString (strlenPrefix s)

/-- `svn_ra_svn_write_word`: the word's bytes followed by a space. -/
def writeWord (w : List Nat) : List Nat := w ++ [32]

/-! ## Items -/

/-- `svn_ra_svn_item_t`: the tagged union of wire item kinds
(NUMBER / STRING / WORD / LIST). -/
inductive Item : Type where
  | number (n : Nat)
  | str (s : List Nat)
  | word (w : List Nat)
  | list (l : List Item)

mutual

/-- Serialization of one item, composing the item writers exactly as the
write path of marshal.c does (a list is `( ` items `) `). -/
def writeItem : Item → List Nat
  | .number n => writeNumber n
  | .str s => writeString s
  | .word w => writeWord w
  | .list l => [40, 32] ++ writeItems l ++ [41, 32]

/-- Serialization of a sequence of items, in order. -/
def writeItems : List Item → List Nat
  | [] => []
  | i :: is => writeItem i ++ writeItems is

end

mutual

/-- Well-formedness of an item for the round-trip law: numbers below
2^63 (the signed-formatter limit), string lengths below 2^64, words
syntactically valid (nonempty, alphabetic start, alphanumeric-or-hyphen
tail, as the data model defines a word). -/
def wfItem : Item → Bool
  | .number n => decide (n < I64)
  | .str s => decide (s.length < U64)
  | .word w =>
    match w with
    | [] => false
    | c :: t => isAlpha c && t.all isWordTail
  | .list l => wfItems l

/-- Well-formedness of every item of a list. -/
def wfItems : List Item → Bool
  | [] => true
  | i :: t => wfItem i && wfItems t

end

mutual

/-- Fuel sufficient for `readItem` to parse this item (one unit per
`readItem`/`readList` call along the deepest call chain). -/
def needed : Item → Nat
  | .number _ => 1
  | .str _ => 1
  | .word _ => 1
  | .list l => 1 + neededL l

/-- Fuel sufficient for `readList` to parse these items and the
closing parenthesis. -/
def neededL : List Item → Nat
  | [] => 1
  | i :: t => 1 + max (needed i) (neededL t)

end

/-! ## Item reader (read_item / svn_ra_svn_read_item).

The stream is the byte list; `readbuf_getchar` on an exhausted stream is
the zero-byte socket read that `readbuf_fill` turns into
`SVN_ERR_RA_SVN_CONNECTION_CLOSED`. -/

/-- Error kinds the read path can produce.  `fuel` is the model's
out-of-fuel marker, never hit with sufficient fuel. -/
inductive RErr : Type where
  | connClosed
  | malformed
  | fuel
deriving DecidableEq

/-- The digit-accumulation loop of `read_item`:
`val = val * 10 + (c - '0')` in `apr_uint64_t` arithmetic, until the
first non-digit, which is returned along with the rest of the stream. -/
def readNum (acc : Nat) : List Nat → Except RErr (Nat × Nat × List Nat)
  | [] => .error .connClosed
  | b :: s => if isDigit b then readNum ((acc * 10 + (b - 48)) % U64) s else .ok (acc, b, s)

/-- The word-accumulation loop of `read_item`: append bytes while
alphanumeric or hyphen; return the first other byte and the rest. -/
def readWord (acc : List Nat) : List Nat → Except RErr (List Nat × Nat × List Nat)
  | [] => .error .connClosed
  | b :: s => if isWordTail b then readWord (acc ++ [b]) s else .ok (acc, b, s)

/-- `readbuf_read(conn, data, len)` for the string payload: take exactly
`n` bytes, failing with connection-closed when the stream is shorter. -/
def takeExact (n : Nat) (s : List Nat) : Except RErr (List Nat × List Nat) :=
  if s.length < n then .error .connClosed else .ok (s.take n, s.drop n)

/-- `readbuf_getchar_skip_whitespace`: first byte after any run of
spaces and newlines. -/
def skipWs : List Nat → Except RErr (Nat × List Nat)
  | [] => .error .connClosed
  | b :: s => if isWs b then skipWs s else .ok (b, s)

mutual

/-- `read_item(conn, pool, item, first_char)`: `c` is the first
(non-whitespace) byte, already consumed from `s`.  Mirrors the C
control flow, including the early `return SVN_NO_ERROR` of the digit
branch, which skips the final whitespace test for numbers and strings.
A whitespace `c` cannot reach this function from its call sites (both
skip whitespace first); the C would return an uninitialized item there,
modelled as `malformed`. -/
def readItem : Nat → Nat → List Nat → Except RErr (Item × List Nat)
  | 0, _, _ => .error .fuel
  | fuel + 1, c, s =>
    if isDigit c then
      match readNum (c - 48) s with
      | .error e => .error e
      | .ok (val, t, s1) =>
        if t = 58 then
          match takeExact val s1 with
          | .error e => .error e
          | .ok (bytes, s2) =>
            match s2 with
            | [] => .error .connClosed
            | _ :: s3 => .ok (.str bytes, s3)
        else .ok (.number val, s1)
    else if isAlpha c then
      match readWord [c] s with
      | .error e => .error e
      | .ok (w, t, s1) => if isWs t then .ok (.word w, s1) else .error .malformed
    else if c = 40 then
      match readList fuel [] s with
      | .error e => .error e
      | .ok (l, s1) =>
        match s1 with
        | [] => .error .connClosed
        | t :: s2 => if isWs t then .ok (.list l, s2) else .error .malformed
    else .error .malformed

/-- The list-reading loop of `read_item`: skip whitespace, stop at `)`,
otherwise read an item and continue. -/
def readList : Nat → List Item → List Nat → Except RErr (List Item × List Nat)
  | 0, _, _ => .error .fuel
  | fuel + 1, acc, s =>
    match skipWs s with
    | .error e => .error e
    | .ok (c, s1) =>
      if c = 41 then .ok (acc, s1)
      else
        match readItem fuel c s1 with
        | .error e => .error e
        | .ok (it, s2) => readList fuel (acc ++ [it]) s2

end

/-- `svn_ra_svn_read_item`: skip leading whitespace, then `read_item`. -/
def readItemTop (fuel : Nat) (s : List Nat) : Except RErr (Item × List Nat) :=
  match skipWs s with
  | .error e => .error e
  | .ok (c, s1) => readItem fuel c s1

/-! ## Tuple parsing (svn_ra_svn_vparse_tuple) -/

/-- A value extracted by `svn_ra_svn_vparse_tuple` into a va_arg output
pointer (one constructor per format letter that can match). -/
inductive TupVal : Type where
  | num (n : Nat)
  | rev (r : Nat)
  | str (s : List Nat)
  | cstr (s : List Nat)
  | word (w : List Nat)
  | list (l : List Item)

/-- The position-by-position loop of `svn_ra_svn_vparse_tuple`: format
bytes against items; `none` models breaking out on the first mismatch
(`n` = 110, `r` = 114, `s` = 115, `c` = 99, `w` = 119, `l` = 108). -/
def tupMatch : List Nat → List Item → Option (List TupVal)
  | [], _ => some []
  | f :: fmt, it :: items =>
    if f = 110 then
      match it with
      | .number n => (tupMatch fmt items).map (fun vs => .num n :: vs)
      | _ => none
    else if f = 114 then
      match it with
      | .number n => (tupMatch fmt items).map (fun vs => .rev n :: vs)
      | _ => none
    else if f = 115 then
      match it with
      | .str s => (tupMatch fmt items).map (fun vs => .str s :: vs)
      | _ => none
    else if f = 99 then
      match it with
      | .str s => (tupMatch fmt items).map (fun vs => .cstr s :: vs)
      | _ => none
    else if f = 119 then
      match it with
      | .word w => (tupMatch fmt items).map (fun vs => .word w :: vs)
      | _ => none
    else if f = 108 then
      match it with
      | .list l => (tupMatch fmt items).map (fun vs => .list l :: vs)
      | _ => none
    else none
  | _ :: _, [] => none

/-- `svn_ra_svn_vparse_tuple(list, pool, fmt, ap)`: requires
`list->nelts >= strlen(fmt)`, then matches position by position; any
mismatch (the loop breaking before the format is exhausted) is
`SVN_ERR_RA_SVN_MALFORMED_DATA`. -/
def vparseTuple (list : List Item) (fmt : List Nat) : Except RErr (List TupVal) :=
  if fmt.length ≤ list.length then
    match tupMatch fmt list with
    | some vals => .ok vals
    | none => .error .malformed
  else .error .malformed

/-- Whether item `it` satisfies format letter `f`, as the spec states it:
`n`/`r` → Number, `s`/`c` → String, `w` → Word, `l` → List. -/
def kindMatches (f : Nat) (it : Item) : Bool :=
  if f = 110 ∨ f = 114 then
    match it with
    | .number _ => true
    | _ => false
  else if f = 115 ∨ f = 99 then
    match it with
    | .str _ => true
    | _ => false
  else if f = 119 then
    match it with
    | .word _ => true
    | _ => false
  else if f = 108 then
    match it with
    | .list _ => true
    | _ => false
  else false

/-- The spec's acceptance condition for tuple parsing, stated
structurally: the format is exhausted before the item list and every
position's kind matches its letter. -/
def tupleAccepts : List Nat → List Item → Bool
  | [], _ => true
  | _ :: _, [] => false
  | f :: fmt, it :: items => kindMatches f it && tupleAccepts fmt items

/-! ## Tuple writing (svn_ra_svn_vwrite_tuple) -/

/-- One variadic argument of `svn_ra_svn_vwrite_tuple`, typed by the
format letter that consumes it.  `rev` is the signed `svn_revnum_t`
(valid iff nonnegative); the pointer arguments may be null (`none`). -/
inductive TArg : Type where
  | num (n : Nat)
  | rev (r : Int)
  | str (s : Option (List Nat))
  | cstr (s : Option (List Nat))
  | word (w : Option (List Nat))

/-- Abnormal terminations of `svn_ra_svn_vwrite_tuple`:
`assert(opt > 0 || present)` firing, `abort()` on an unknown format
byte, and a va_arg type confusion (undefined behavior in C, made an
explicit error here). -/
inductive WFail : Type where
  | assertFail
  | abortCalled
  | argMismatch
deriving DecidableEq

/-- The format loop of `svn_ra_svn_vwrite_tuple`.  `opt` is the optional
nesting counter (a C `int`, so it may go negative); the result is the
emitted bytes together with the number of values omitted because they
were missing inside an optional group.  Letters: `n` 110, `r` 114,
`s` 115, `c` 99, `w` 119, `[` 91, `]` 93, `(` 40, `)` 41. -/
def vwtLoop : Int → List Nat → List TArg → Except WFail (List Nat × Nat)
  | _, [], _ => .ok ([], 0)
  | opt, f :: fmt, args =>
    if f = 110 then
      match args with
      | .num n :: args1 => (vwtLoop opt fmt args1).map (fun p => (writeNumber n ++ p.1, p.2))
      | _ => .error .argMismatch
    else if f = 114 then
      match args with
      | .rev r :: args1 =>
        if 0 ≤ r then (vwtLoop opt fmt args1).map (fun p => (writeNumber r.toNat ++ p.1, p.2))
        else if 0 < opt then (vwtLoop opt fmt args1).map (fun p => (p.1, p.2 + 1))
        else .error .assertFail
      | _ => .error .argMismatch
    else if f = 115 then
      match args with
      | .str (some s) :: args1 => (vwtLoop opt fmt args1).map (fun p => (writeString s ++ p.1, p.2))
      | .str none :: args1 =>
        if 0 < opt then (vwtLoop opt fmt args1).map (fun p => (p.1, p.2 + 1))
        else .error .assertFail
      | _ => .error .argMismatch
    else if f = 99 then
      match args with
      | .cstr (some s) :: args1 => (vwtLoop opt fmt args1).map (fun p => (writeCString s ++ p.1, p.2))
      | .cstr none :: args1 =>
        if 0 < opt then (vwtLoop opt fmt args1).map (fun p => (p.1, p.2 + 1))
        else .error .assertFail
      | _ => .error .argMismatch
    else if f = 119 then
      match args with
      | .word (some w) :: args1 => (vwtLoop opt fmt args1).map (fun p => (writeWord w ++ p.1, p.2))
      | .word none :: args1 =>
        if 0 < opt then (vwtLoop opt fmt args1).map (fun p => (p.1, p.2 + 1))
        else .error .assertFail
      | _ => .error .argMismatch
    else if f = 91 then (vwtLoop (opt + 1) fmt args).map (fun p => ([40, 32] ++ p.1, p.2))
    else if f = 93 then (vwtLoop (opt - 1) fmt args).map (fun p => ([41, 32] ++ p.1, p.2))
    else if f = 40 then (vwtLoop opt fmt args).map (fun p => ([40, 32] ++ p.1, p.2))
    else if f = 41 then (vwtLoop opt fmt args).map (fun p => ([41, 32] ++ p.1, p.2))
    else .error .abortCalled

/-- `svn_ra_svn_vwrite_tuple`: the enclosing `( `/`) ` pair around the
format loop, starting with optional depth 0. -/
def vwriteTuple (fmt : List Nat) (args : List TArg) : Except WFail (List Nat × Nat) :=
  (vwtLoop 0 fmt args).map (fun p => ([40, 32] ++ p.1 ++ [41, 32], p.2))

/-- The argument list is aligned with the format and every value is
present and valid: numbers for `n`, a nonnegative revision for `r`,
non-null pointers for `s`/`c`/`w`; `]`, `(`, `)` consume no argument.
(`[` is deliberately not accepted: the claim is about formats without
optional groups.) -/
def argsOk : List Nat → List TArg → Bool
  | [], _ => true
  | f :: fmt, args =>
    if f = 110 then
      match args with
      | .num _ :: args1 => argsOk fmt args1
      | _ => false
    else if f = 114 then
      match args with
      | .rev r :: args1 => decide (0 ≤ r) && argsOk fmt args1
      | _ => false
    else if f = 115 then
      match args with
      | .str (some _) :: args1 => argsOk fmt args1
      | _ => false
    else if f = 99 then
      match args with
      | .cstr (some _) :: args1 => argsOk fmt args1
      | _ => false
    else if f = 119 then
      match args with
      | .word (some _) :: args1 => argsOk fmt args1
      | _ => false
    else if f = 93 ∨ f = 40 ∨ f = 41 then argsOk fmt args
    else false

/-! ## Error chains, failure responses (svn_ra_svn_write_cmd_failure,
svn_ra_svn_read_cmd_response) -/

/-- One link of an `svn_error_t` chain: `(apr_err, message, file, line)`.
A chain is a `List ErrRec` whose head is the error object itself and
whose tail is its cause chain (`child` pointers), so the last element is
the innermost (root) cause. -/
structure ErrRec : Type where
  aprErr : Nat
  message : List Nat
  file : List Nat
  line : Nat
deriving DecidableEq

/-- Well-formedness of an error chain for the failure round-trip:
numeric fields below 2^63 (the signed number formatter), message and
file bytes NUL-free (they cross the wire as C strings via `strlen`) and
of length below 2^64. -/
def wfChain : List ErrRec → Bool
  | [] => true
  | r :: t =>
    decide (r.aprErr < I64) && decide (r.line < I64) &&
    decide (r.message.length < U64) && decide (r.file.length < U64) &&
    decide (0 ∉ r.message) && decide (0 ∉ r.file) && wfChain t

/-- `SVN_ERR_RA_SVN_CMD_ERR`.  Modelled from the spec: the numeric error
codes live in a header that is not among the provided sources; the
claims depend only on comparisons against this constant. -/
def SVN_ERR_RA_SVN_CMD_ERR : Nat := 210004

/-- `SVN_ERR_RA_SVN_UNKNOWN_CMD`.  Modelled from the spec, as above. -/
def SVN_ERR_RA_SVN_UNKNOWN_CMD : Nat := 210005

/-- One error entry of a failure response, written by
`svn_ra_svn_write_tuple(conn, pool, "nccn", apr_err, message, file,
line)` inside `svn_ra_svn_write_cmd_failure`. -/
def writeErrTuple (r : ErrRec) : List Nat :=
  match vwriteTuple [110, 99, 99, 110]
      [.num r.aprErr, .cstr (some r.message), .cstr (some r.file), .num r.line] with
  | .ok p => p.1
  | .error _ => []

/-- The `for (; err; err = err->child)` loop of
`svn_ra_svn_write_cmd_failure`: one tuple per chain link, the error
object itself first. -/
def writeErrChain : List ErrRec → List Nat
  | [] => []
  | r :: t => writeErrTuple r ++ writeErrChain t

/-- The word `failure` in ASCII. -/
def failureWordBytes : List Nat := [102, 97, 105, 108, 117, 114, 101]

/-- The word `success` in ASCII. -/
def successWordBytes : List Nat := [115, 117, 99, 99, 101, 115, 115]

/-- `svn_ra_svn_write_cmd_failure`: `( failure ( ` err-tuples `) ) `. -/
def writeCmdFailure (ch : List ErrRec) : List Nat :=
  [40, 32] ++ writeWord failureWordBytes ++ ([40, 32] ++ writeErrChain ch ++ [41, 32]) ++ [41, 32]

/-- Parse one error entry of a failure response: the element must be a
list, parsed with format `"nccn"`. -/
def parseErrEntry (it : Item) : Except RErr ErrRec :=
  match it with
  | .list l =>
    match vparseTuple l [110, 99, 99, 110] with
    | .ok [.num a, .cstr m, .cstr f2, .num ln] => .ok ⟨a, m, f2, ln⟩
    | .ok _ => .error .malformed
    | .error e => .error e
  | _ => .error .malformed

/-- The reconstruction loop of `svn_ra_svn_read_cmd_response`: iterate
the error list from its last element, wrapping each parsed entry around
the chain built so far (`err = svn_error_create(apr_err, 0, err,
message)`), so the resulting chain preserves the wire order. -/
def buildErrChain : List Item → Except RErr (List ErrRec)
  | [] => .ok []
  | it :: rest =>
    match buildErrChain rest with
    | .error e => .error e
    | .ok ch =>
      match parseErrEntry it with
      | .error e => .error e
      | .ok r => .ok (r :: ch)

/-- Result of `svn_ra_svn_read_cmd_response`: a parsed `success` body,
or the reconstructed error chain of a `failure` response. -/
inductive CmdResp : Type where
  | success (vals : List TupVal)
  | failure (ch : List ErrRec)

/-- `svn_ra_svn_read_cmd_response(conn, pool, fmt, ...)`: read one tuple
`"wl"`; on `success` parse the body against `fmt`; on `failure` rebuild
the error chain (an empty error list is malformed); unknown status words
are malformed. -/
def readCmdResponse (fmt : List Nat) (s : List Nat) : Except RErr (CmdResp × List Nat) :=
  match readItemTop (s.length + 1) s with
  | .error e => .error e
  | .ok (it, rest) =>
    match it with
    | .list l =>
      match vparseTuple l [119, 108] with
      | .error e => .error e
      | .ok [.word status, .list params] =>
        if status = successWordBytes then
          match vparseTuple params fmt with
          | .error e => .error e
          | .ok vs => .ok (.success vs, rest)
        else if status = failureWordBytes then
          match params with
          | [] => .error .malformed
          | _ :: _ =>
            match buildErrChain params with
            | .error e => .error e
            | .ok ch => .ok (.failure ch, rest)
        else .error .malformed
      | .ok _ => .error .malformed
    | _ => .error .malformed

/-! ## The buffered connection (svn_ra_svn_conn_t and the readbuf/writebuf
operations).

The `svn_ra_svn_conn_t` structure itself is declared in `ra_svn.h`,
which is not among the provided sources; it is modelled from the spec's
data model: two fixed-size buffers, read cursors `ptr`/`end`, a write
position.  `readBuf` holds the filled prefix `read_buf[0 .. read_end)`
of the read buffer (bytes beyond `read_end` are never read by the C
code), so `read_end = readBuf.length`; `readPtr` is the offset
`read_ptr - read_buf`.  `writeBuf` holds `write_buf[0 .. write_pos)`, so
`write_pos = writeBuf.length`.  The socket is modelled by the
not-yet-read inbound bytes `sockIn`, the delivered outbound bytes
`sockOut`, and a flag `wFail` making socket writes fail (to observe how
flush failures propagate); socket writes accept all bytes when they do
not fail, and socket reads return `min(requested, available)` bytes. -/
structure Conn : Type where
  sockIn : List Nat
  sockOut : List Nat
  readBuf : List Nat
  readPtr : Nat
  writeBuf : List Nat
  wFail : Bool

/-- Capacity of each buffer (`sizeof(conn->read_buf)` and
`sizeof(conn->write_buf)`).  Modelled from the spec:
"implementation-defined capacity, typically a few KiB". -/
def BUFSZ : Nat := 4096

/-- Observable I/O events of the buffer operations: a write-buffer flush
being invoked, and a socket read carrying the number of still-buffered
outbound bytes at the moment the read is issued. -/
inductive Ev : Type where
  | flush
  | sockRead (pending : Nat)
deriving DecidableEq

/-- Errors of the connection layer.  `fuelOut` is the model's loop-fuel
marker. -/
inductive SErr : Type where
  | ioErr
  | connClosed
  | assertFail
  | fuelOut
deriving DecidableEq

/-- `svn_ra_svn_create_conn`: empty buffers, `read_ptr = read_end`,
`write_pos = 0`. -/
def createConn (input : List Nat) : Conn :=
  { sockIn := input, sockOut := [], readBuf := [], readPtr := 0, writeBuf := [], wFail := false }

/-- `writebuf_push`: copy `min(buflen, end - data)` bytes into the write
buffer; returns the connection and the number of bytes consumed. -/
def writebufPush (c : Conn) (data : List Nat) : Conn × Nat :=
  let buflen := BUFSZ - c.writeBuf.length
  let copylen := min buflen data.length
  ({ c with writeBuf := c.writeBuf ++ data.take copylen }, copylen)

/-- `writebuf_flush`: write the buffered bytes to the socket.  With
`write_pos = 0` the loop body never runs; a failing socket write returns
`SVN_ERR_RA_SVN_IO_ERROR` leaving `write_pos` untouched; otherwise all
bytes are delivered and `write_pos` is reset to 0. -/
def writebufFlush (c : Conn) : Except SErr Unit × Conn × List Ev :=
  if c.writeBuf.length = 0 then (.ok (), c, [.flush])
  else if c.wFail then (.error .ioErr, c, [.flush])
  else (.ok (), { c with sockOut := c.sockOut ++ c.writeBuf, writeBuf := [] }, [.flush])

/-- The direct-to-socket tail of `writebuf_write`: while more than a
bufferful remains, write directly to the socket; then push the (now
fitting) remainder into the buffer. -/
def writebufWriteDirect (c : Conn) (data : List Nat) : Except SErr Unit × Conn × List Ev :=
  if BUFSZ < data.length then
    if c.wFail then (.error .ioErr, c, [])
    else (.ok (), { c with sockOut := c.sockOut ++ data }, [])
  else (.ok (), (writebufPush c data).1, [])

/-- `writebuf_write`: if the buffer is nonempty and would overflow, fill
it and flush (`SVN_ERR` propagates a flush failure); then the direct
path and the final push. -/
def writebufWrite (c : Conn) (data : List Nat) : Except SErr Unit × Conn × List Ev :=
  if 0 < c.writeBuf.length ∧ BUFSZ < c.writeBuf.length + data.length then
    let p := writebufPush c data
    match writebufFlush p.1 with
    | (.error e, c2, tr) => (.error e, c2, tr)
    | (.ok _, c2, tr) =>
      match writebufWriteDirect c2 (data.drop p.2) with
      | (r, c3, tr2) => (r, c3, tr ++ tr2)
  else writebufWriteDirect c data

/-- `readbuf_fill`: asserts the read buffer is empty, invokes
`writebuf_flush` **discarding its result** (the C statement
`writebuf_flush(conn);` ignores the returned error), then reads up to a
bufferful from the socket; a zero-byte read is
`SVN_ERR_RA_SVN_CONNECTION_CLOSED`. -/
def readbufFill (c : Conn) : Except SErr Unit × Conn × List Ev :=
  if c.readPtr = c.readBuf.length then
    match writebufFlush c with
    | (_, c1, tr) =>
      let chunk := c1.sockIn.take BUFSZ
      let tr2 := tr ++ [.sockRead c1.writeBuf.length]
      if chunk.length = 0 then (.error .connClosed, c1, tr2)
      else (.ok (), { c1 with sockIn := c1.sockIn.drop chunk.length, readBuf := chunk, readPtr := 0 }, tr2)
  else (.error .assertFail, c, [])

/-- `readbuf_getchar`: fill when empty, then return `*read_ptr++`. -/
def readbufGetchar (c : Conn) : Except SErr Nat × Conn × List Ev :=
  if c.readPtr = c.readBuf.length then
    match readbufFill c with
    | (.error e, c1, tr) => (.error e, c1, tr)
    | (.ok _, c1, tr) => (.ok (c1.readBuf.getD c1.readPtr 0), { c1 with readPtr := c1.readPtr + 1 }, tr)
  else (.ok (c.readBuf.getD c.readPtr 0), { c with readPtr := c.readPtr + 1 }, [])

/-- `readbuf_drain`: copy `min(buflen, end - data)` buffered bytes out;
returns the copied bytes and the advanced connection. -/
def readbufDrain (c : Conn) (len : Nat) : List Nat × Conn :=
  let buflen := c.readBuf.length - c.readPtr
  let copylen := min buflen len
  ((c.readBuf.drop c.readPtr).take copylen, { c with readPtr := c.readPtr + copylen })

/-- The final loop of `readbuf_read`: while bytes remain, fill the
buffer and drain from it. -/
def rbrFillLoop : Nat → Conn → List Nat → Nat → Except SErr (List Nat) × Conn × List Ev
  | 0, c, _, _ => (.error .fuelOut, c, [])
  | f + 1, c, acc, rem =>
    if rem = 0 then (.ok acc, c, [])
    else
      match readbufFill c with
      | (.error e, c1, tr) => (.error e, c1, tr)
      | (.ok _, c1, tr) =>
        let p := readbufDrain c1 rem
        match rbrFillLoop f p.2 (acc ++ p.1) (rem - p.1.length) with
        | (r, c3, tr2) => (r, c3, tr ++ tr2)

/-- The direct-from-socket loop of `readbuf_read`: while more than a
bufferful remains, invoke `writebuf_flush` **discarding its result**
and read the remainder directly from the socket (a zero-byte read is
connection-closed); then fall through to the fill-and-drain loop. -/
def rbrDirectLoop : Nat → Conn → List Nat → Nat → Except SErr (List Nat) × Conn × List Ev
  | 0, c, _, _ => (.error .fuelOut, c, [])
  | f + 1, c, acc, rem =>
    if BUFSZ < rem then
      match writebufFlush c with
      | (_, c1, tr) =>
        let chunk := c1.sockIn.take rem
        let tr2 := tr ++ [.sockRead c1.writeBuf.length]
        if chunk.length = 0 then (.error .connClosed, c1, tr2)
        else
          match rbrDirectLoop f { c1 with sockIn := c1.sockIn.drop chunk.length } (acc ++ chunk) (rem - chunk.length) with
          | (r, c2, tr3) => (r, c2, tr2 ++ tr3)
    else rbrFillLoop (f + 1) c acc rem

/-- `readbuf_read(conn, data, len)`: drain what the buffer holds, then
the direct loop, then the fill-and-drain loop; returns the `len` bytes
read. -/
def readbufRead (fuel : Nat) (c : Conn) (len : Nat) : Except SErr (List Nat) × Conn × List Ev :=
  let p := readbufDrain c len
  rbrDirectLoop fuel p.2 p.1 (len - p.1.length)

/-- The connection invariant of the spec:
`read_ptr ≤ read_end ≤ buffer_capacity` and `0 ≤ write_pos ≤
buffer_capacity` (the lower bounds are inherent to `Nat`). -/
def wfConn (c : Conn) : Prop :=
  c.readPtr ≤ c.readBuf.length ∧ c.readBuf.length ≤ BUFSZ ∧ c.writeBuf.length ≤ BUFSZ

instance (c : Conn) : Decidable (wfConn c) := by
  unfold wfConn; infer_instance

/-! ## Trace predicates for the flush-before-read discipline -/

/-- Every socket read in the trace is immediately preceded by a
write-buffer flush invocation; the flag says whether the previous event
was a flush. -/
def readsFlushed : Bool → List Ev → Bool
  | _, [] => true
  | _, .flush :: r => readsFlushed true r
  | prev, .sockRead _ :: r => prev && readsFlushed false r

/-- Every socket read in the trace was issued with an empty write
buffer (no unflushed outbound bytes). -/
def pendingsZero : List Ev → Bool
  | [] => true
  | .flush :: r => pendingsZero r
  | .sockRead p :: r => (p == 0) && pendingsZero r

/-! ## Command dispatcher (svn_ra_svn_handle_commands) -/

/-- One row of the `svn_ra_svn_cmd_entry_t` table.  The handler is
modelled by the error chain it returns (`[]` for `SVN_NO_ERROR`); its
writes to the connection, its baton and its pool are outside the
dispatcher logic the claims concern. -/
structure CmdEntry : Type where
  name : List Nat
  handler : List Item → List ErrRec
  terminate : Bool

/-- An error leaving `svn_ra_svn_handle_commands`: either a transport or
framing error from reading the command tuple, or a handler error
propagated out of the loop. -/
inductive DispErr : Type where
  | read (e : RErr)
  | handler (ch : List ErrRec)

/-- ASCII of `"Unknown command "`, the prefix of the message
`svn_error_createf(SVN_ERR_RA_SVN_UNKNOWN_CMD, 0, NULL, "Unknown
command %s", cmdname)` formats. -/
def unknownCmdMsg : List Nat :=
  [85, 110, 107, 110, 111, 119, 110, 32, 99, 111, 109, 109, 97, 110, 100, 32]

/-- The unknown-command error chain.  The `file`/`line` debug fields the
`svn_error_createf` macro captures are modelled as empty/zero. -/
def unknownCmdErr (w : List Nat) : ErrRec :=
  ⟨SVN_ERR_RA_SVN_UNKNOWN_CMD, unknownCmdMsg ++ w, [], 0⟩

/-- `svn_ra_svn_handle_commands(conn, pool, commands, baton,
pass_through_errors)` over the byte stream `input`, with `out`
accumulating the response bytes written so far.  Per iteration: read a
tuple `"wl"` (read errors propagate via `SVN_ERR`); look the word up
(first match); invoke the handler; an error whose top-level code is
`SVN_ERR_RA_SVN_CMD_ERR` is unwrapped to its cause (`err = err->child`),
any other handler error is returned immediately; an unknown command
synthesizes an error; a (now possibly unwrapped) pending error is
written as a failure response and, if `pass_through_errors`, returned;
finally the matched entry's `terminate` flag ends the loop (the
sentinel row behind an unknown command has `terminate` false). -/
def handleCommands : Nat → List CmdEntry → Bool → List Nat → List Nat →
    Except DispErr Unit × List Nat
  | 0, _, _, _, out => (.error (.read .fuel), out)
  | f + 1, cmds, pt, input, out =>
    match readItemTop (input.length + 1) input with
    | .error e => (.error (.read e), out)
    | .ok (it, rest) =>
      match it with
      | .list l =>
        match vparseTuple l [119, 108] with
        | .error e => (.error (.read e), out)
        | .ok [.word w, .list params] =>
          let found := cmds.find? (fun en => en.name == w)
          let hres : Except (List ErrRec) (List ErrRec) :=
            match found with
            | some en =>
              match en.handler params with
              | [] => .ok []
              | r :: t => if r.aprErr = SVN_ERR_RA_SVN_CMD_ERR then .ok t else .error (r :: t)
            | none => .ok [unknownCmdErr w]
          match hres with
          | .error ch => (.error (.handler ch), out)
          | .ok ch =>
            let term := match found with
              | some en => en.terminate
              | none => false
            match ch with
            | [] =>
              if term then (.ok (), out)
              else handleCommands f cmds pt rest out
            | _ :: _ =>
              let out2 := out ++ writeCmdFailure ch
              if pt then (.error (.handler ch), out2)
              else if term then (.ok (), out2)
              else handleCommands f cmds pt rest out2
        | .ok _ => (.error (.read .malformed), out)
      | _ => (.error (.read .malformed), out)

/-- The pure (unbounded) digit-accumulation step. -/
def stepP (a b : Nat) : Nat := a * 10 + (b - 48)

/-- The digit-accumulation step in `apr_uint64_t` arithmetic, as
performed by `read_item`. -/
def stepM (a b : Nat) : Nat := (a * 10 + (b - 48)) % U64

/-! # Theorems -/

/-! ## Decimal round-trip machinery -/

theorem natDigitsAux_decVal : ∀ f n, n ≤ f → decVal (natDigitsAux f n) = n := by
  intro f
  induction f with
  | zero => intro n h; interval_cases n; simp [natDigitsAux, decVal]
  | succ f ih =>
    intro n h
    by_cases h0 : n = 0
    · simp [natDigitsAux, h0, decVal]
    · have hdiv : n / 10 ≤ f := by
        have := Nat.div_lt_self (Nat.pos_of_ne_zero h0) (by norm_num : 1 < 10)
        omega
      simp only [natDigitsAux, if_neg h0, decVal, ih _ hdiv]
      omega

theorem natDigitsAux_lt : ∀ f n d, d ∈ natDigitsAux f n → d < 10 := by
  intro f
  induction f with
  | zero => intro n d h; simp [natDigitsAux] at h
  | succ f ih =>
    intro n d h
    by_cases h0 : n = 0
    · simp [natDigitsAux, h0] at h
    · simp only [natDigitsAux, if_neg h0, List.mem_cons] at h
      rcases h with h | h
      · subst h; exact Nat.mod_lt _ (by norm_num)
      · exact ih _ _ h

theorem natToDec_ne_nil (n : Nat) : natToDec n ≠ [] := by
  unfold natToDec
  by_cases h0 : n = 0
  · simp [h0]
  · simp only [if_neg h0]
    intro h
    rw [List.reverse_eq_nil_iff, List.map_eq_nil_iff] at h
    have : decVal (natDigits n) = n := natDigitsAux_decVal n n le_rfl
    rw [show natDigits n = [] from h] at this
    simp [decVal] at this
    exact h0 this.symm

theorem natToDec_digits {n b : Nat} (h : b ∈ natToDec n) : isDigit b = true := by
  unfold natToDec at h
  by_cases h0 : n = 0
  · simp [h0] at h; simp [h, isDigit]
  · simp only [if_neg h0, List.mem_reverse, List.mem_map] at h
    obtain ⟨d, hd, rfl⟩ := h
    have := natDigitsAux_lt n n d hd
    simp [isDigit]
    omega

theorem readNum_spec : ∀ (ds : List Nat) (t : Nat) (s : List Nat) (acc : Nat),
    (∀ d ∈ ds, isDigit d = true) → isDigit t = false →
    readNum acc (ds ++ t :: s) = .ok (ds.foldl stepM acc, t, s) := by
  intro ds
  induction ds with
  | nil => intro t s acc _ ht; simp [readNum, ht]
  | cons d ds ih =>
    intro t s acc hds ht
    have hd : isDigit d = true := hds d (List.mem_cons_self d ds)
    simp only [List.cons_append, readNum, hd, if_pos, List.foldl_cons]
    exact ih t s _ (fun x hx => hds x (List.mem_cons_of_mem d hx)) ht

theorem foldl_stepP_le : ∀ (B : List Nat) (a : Nat), a ≤ B.foldl stepP a := by
  intro B
  induction B with
  | nil => intro a; simp
  | cons b B ih =>
    intro a
    calc a ≤ stepP a b := by unfold stepP; omega
    _ ≤ B.foldl stepP (stepP a b) := ih _
    _ = (b :: B).foldl stepP a := by simp [List.foldl_cons]

theorem foldl_stepM_eq : ∀ (B : List Nat) (a : Nat), B.foldl stepP a < U64 →
    B.foldl stepM a = B.foldl stepP a := by
  intro B
  induction B with
  | nil => intro a _; simp
  | cons b B ih =>
    intro a h
    have hstep : stepP a b < U64 := by
      calc stepP a b ≤ B.foldl stepP (stepP a b) := foldl_stepP_le B _
      _ = (b :: B).foldl stepP a := by simp [List.foldl_cons]
      _ < U64 := h
    have hm : stepM a b = stepP a b := by
      unfold stepM stepP at *
      exact Nat.mod_eq_of_lt hstep
    simp only [List.foldl_cons] at h ⊢
    rw [hm, ih _ h]

theorem foldl_stepP_reverse : ∀ (D : List Nat) (a : Nat),
    ((D.map (fun d => d + 48)).reverse).foldl stepP a = a * 10 ^ D.length + decVal D := by
  intro D
  induction D with
  | nil => intro a; simp [decVal]
  | cons d D ih =>
    intro a
    simp only [List.map_cons, List.reverse_cons, List.foldl_append, List.foldl_cons,
      List.foldl_nil, ih, decVal, List.length_cons]
    unfold stepP
    have : d + 48 - 48 = d := by omega
    rw [this, pow_succ]
    ring

theorem foldl_stepM_natToDec (n : Nat) (h : n < U64) : (natToDec n).foldl stepM 0 = n := by
  unfold natToDec
  by_cases h0 : n = 0
  · subst h0; decide
  · simp only [if_neg h0]
    have hp : ((natDigits n).map (fun d => d + 48)).reverse.foldl stepP 0 = n := by
      rw [foldl_stepP_reverse]
      simp [natDigitsAux_decVal n n le_rfl, natDigits]
    rw [foldl_stepM_eq _ _ (by rw [hp]; exact h), hp]

/-! ## Byte-class facts -/

theorem digit_not_ws {b : Nat} (h : isDigit b = true) : isWs b = false := by
  simp [isDigit] at h; simp [isWs]; omega

theorem digit_ne_41 {b : Nat} (h : isDigit b = true) : b ≠ 41 := by
  simp [isDigit] at h; omega

theorem alpha_not_digit {b : Nat} (h : isAlpha b = true) : isDigit b = false := by
  simp [isAlpha] at h; simp [isDigit]; omega

theorem alpha_not_ws {b : Nat} (h : isAlpha b = true) : isWs b = false := by
  simp [isAlpha] at h; simp [isWs]; omega

theorem alpha_ne_41 {b : Nat} (h : isAlpha b = true) : b ≠ 41 := by
  simp [isAlpha] at h; omega

theorem isWs_32 : isWs 32 = true := rfl

theorem isWs_41 : isWs 41 = false := rfl

theorem isDigit_40 : isDigit 40 = false := rfl

theorem isAlpha_40 : isAlpha 40 = false := rfl

/-! ## Loop specifications of the reader -/


theorem readWord_spec : ∀ (ds : List Nat) (brk : Nat) (s acc : List Nat),
    (∀ d ∈ ds, isWordTail d = true) → isWordTail brk = false →
    readWord acc (ds ++ brk :: s) = .ok (acc ++ ds, brk, s) := by
  intro ds
  induction ds with
  | nil => intro brk s acc _ hb; simp [readWord, hb]
  | cons d ds ih =>
    intro brk s acc hds hb
    have hd : isWordTail d = true := hds d (List.mem_cons_self d ds)
    simp only [List.cons_append, readWord, hd, if_pos, List.append_eq]
    rw [ih brk s _ (fun x hx => hds x (List.mem_cons_of_mem d hx)) hb]
    simp

theorem takeExact_append (s r : List Nat) : takeExact s.length (s ++ r) = .ok (s, r) := by
  unfold takeExact
  rw [if_neg (by simp)]
  congr 1
  simp

theorem skipWs_not_ws {b : Nat} (h : isWs b = false) (s : List Nat) :
    skipWs (b :: s) = .ok (b, s) := by
  simp [skipWs, h]

theorem skipWs_ws {b : Nat} (h : isWs b = true) (s : List Nat) : skipWs (b :: s) = skipWs s := by
  simp [skipWs, h]

/-- The head byte of a well-formed item's serialization is not
whitespace and not a closing parenthesis. -/
theorem writeItem_head (i : Item) (h : wfItem i = true) :
    ∃ c t, writeItem i = c :: t ∧ isWs c = false ∧ c ≠ 41 := by
  cases i with
  | number n =>
    have hn : n < I64 := by simpa [wfItem] using h
    obtain ⟨c, tl, hnd⟩ : ∃ c tl, natToDec n = c :: tl := by
      cases hx : natToDec n with
      | nil => exact absurd hx (natToDec_ne_nil n)
      | cons a b => exact ⟨a, b, rfl⟩
    have hd : isDigit c = true := natToDec_digits (by rw [hnd]; exact List.mem_cons_self _ _)
    exact ⟨c, tl ++ [32], by simp [writeItem, writeNumber, if_pos hn, hnd],
      digit_not_ws hd, digit_ne_41 hd⟩
  | str s =>
    obtain ⟨c, tl, hnd⟩ : ∃ c tl, natToDec s.length = c :: tl := by
      cases hx : natToDec s.length with
      | nil => exact absurd hx (natToDec_ne_nil _)
      | cons a b => exact ⟨a, b, rfl⟩
    have hd : isDigit c = true := natToDec_digits (by rw [hnd]; exact List.mem_cons_self _ _)
    exact ⟨c, tl ++ 58 :: (s ++ [32]), by simp [writeItem, writeString, hnd],
      digit_not_ws hd, digit_ne_41 hd⟩
  | word w =>
    cases w with
    | nil => simp [wfItem] at h
    | cons c t =>
      have hc : isAlpha c = true := by
        have h2 := h
        simp only [wfItem, Bool.and_eq_true] at h2
        exact h2.1
      exact ⟨c, t ++ [32], by simp [writeItem, writeWord], alpha_not_ws hc, alpha_ne_41 hc⟩
  | list l => exact ⟨40, 32 :: (writeItems l ++ [41, 32]), by simp [writeItem], by decide, by decide⟩

theorem needed_pos (i : Item) : 1 ≤ needed i := by
  cases i <;> simp [needed]

theorem neededL_pos (l : List Item) : 1 ≤ neededL l := by
  cases l <;> simp [neededL]

/-! ## The round-trip law -/

mutual

/-- Round-trip for one item: parsing the serialization (first byte
already consumed), followed by any `rest`, yields the item and exactly
`rest`. -/
theorem rt_item (i : Item) (fuel : Nat) (rest : List Nat) (c : Nat) (t : List Nat)
    (hwf : wfItem i = true) (hf : needed i ≤ fuel) (hw : writeItem i = c :: t) :
    readItem fuel c (t ++ rest) = .ok (i, rest) := by
  obtain ⟨f, rfl⟩ : ∃ f, fuel = f + 1 := by
    have := needed_pos i
    cases fuel with
    | zero => omega
    | succ f => exact ⟨f, rfl⟩
  cases i with
  | number n =>
    have hn : n < I64 := by simpa [wfItem] using hwf
    obtain ⟨c0, tl, hnd⟩ : ∃ c0 tl, natToDec n = c0 :: tl := by
      cases hx : natToDec n with
      | nil => exact absurd hx (natToDec_ne_nil n)
      | cons a b => exact ⟨a, b, rfl⟩
    rw [writeItem, writeNumber, if_pos hn, hnd] at hw
    rw [List.cons_append] at hw
    injection hw with h1 h2
    subst h1
    subst h2
    have hd : isDigit c0 = true := natToDec_digits (by rw [hnd]; exact List.mem_cons_self _ _)
    have hdl : ∀ d ∈ tl, isDigit d = true := fun d hd2 =>
      natToDec_digits (by rw [hnd]; exact List.mem_cons_of_mem _ hd2)
    have hval : tl.foldl stepM (c0 - 48) = n := by
      have hU : n < U64 := by
        have hIU : I64 < U64 := by decide
        omega
      have h0 : stepM 0 c0 = c0 - 48 := by
        have hle : c0 ≤ 57 := by simp [isDigit] at hd; omega
        unfold stepM
        rw [Nat.zero_mul, Nat.zero_add]
        exact Nat.mod_eq_of_lt (by unfold U64; omega)
      have hx := foldl_stepM_natToDec n hU
      rw [hnd, List.foldl_cons, h0] at hx
      exact hx
    have hstream : (tl ++ [32]) ++ rest = tl ++ 32 :: rest := by simp
    simp only [readItem, hd, if_pos, hstream]
    rw [readNum_spec tl 32 rest (c0 - 48) hdl (by decide), hval]
    simp
  | str s =>
    have hlen : s.length < U64 := by simpa [wfItem] using hwf
    obtain ⟨c0, tl, hnd⟩ : ∃ c0 tl, natToDec s.length = c0 :: tl := by
      cases hx : natToDec s.length with
      | nil => exact absurd hx (natToDec_ne_nil _)
      | cons a b => exact ⟨a, b, rfl⟩
    rw [writeItem, writeString, hnd] at hw
    rw [List.cons_append] at hw
    injection hw with h1 h2
    subst h1
    subst h2
    have hd : isDigit c0 = true := natToDec_digits (by rw [hnd]; exact List.mem_cons_self _ _)
    have hdl : ∀ d ∈ tl, isDigit d = true := fun d hd2 =>
      natToDec_digits (by rw [hnd]; exact List.mem_cons_of_mem _ hd2)
    have hval : tl.foldl stepM (c0 - 48) = s.length := by
      have h0 : stepM 0 c0 = c0 - 48 := by
        have hle : c0 ≤ 57 := by simp [isDigit] at hd; omega
        unfold stepM
        rw [Nat.zero_mul, Nat.zero_add]
        exact Nat.mod_eq_of_lt (by unfold U64; omega)
      have hx := foldl_stepM_natToDec s.length hlen
      rw [hnd, List.foldl_cons, h0] at hx
      exact hx
    have hstream : (tl ++ 58 :: (s ++ [32])) ++ rest = tl ++ 58 :: (s ++ 32 :: rest) := by
      simp
    simp only [readItem, hd, if_pos, hstream]
    rw [readNum_spec tl 58 (s ++ 32 :: rest) (c0 - 48) hdl (by decide), hval]
    simp [takeExact_append s (32 :: rest)]
  | word w =>
    cases w with
    | nil => simp [wfItem] at hwf
    | cons cw tw =>
      simp only [wfItem, Bool.and_eq_true] at hwf
      obtain ⟨hca, hta⟩ := hwf
      rw [writeItem, writeWord, List.cons_append] at hw
      injection hw with h1 h2
      subst h1
      subst h2
      have htw : ∀ d ∈ tw, isWordTail d = true := fun d hd =>
        List.all_eq_true.mp hta d hd
      have hstream : (tw ++ [32]) ++ rest = tw ++ 32 :: rest := by simp
      simp only [readItem, alpha_not_digit hca, Bool.false_eq_true, if_neg, hca, if_pos, hstream,
        not_false_eq_true]
      rw [readWord_spec tw 32 rest [cw] htw (by decide)]
      simp [isWs_32]
  | list l =>
    have hwfl : wfItems l = true := by simpa [wfItem] using hwf
    rw [writeItem] at hw
    rw [show ([40, 32] : List Nat) ++ writeItems l ++ [41, 32] =
      40 :: (32 :: (writeItems l ++ [41, 32])) by simp] at hw
    injection hw with h1 h2
    subst h1
    subst h2
    have hfl : neededL l ≤ f := by
      simp only [needed] at hf
      omega
    obtain ⟨f1, rfl⟩ : ∃ f1, f = f1 + 1 := by
      have := neededL_pos l
      cases f with
      | zero => omega
      | succ f1 => exact ⟨f1, rfl⟩
    have hstream : (32 :: (writeItems l ++ [41, 32])) ++ rest =
        32 :: (writeItems l ++ 41 :: 32 :: rest) := by simp
    simp only [readItem, hstream, isDigit_40, isAlpha_40, Bool.false_eq_true, if_neg, if_pos,
      not_false_eq_true]
    rw [show readList (f1 + 1) [] (32 :: (writeItems l ++ 41 :: 32 :: rest)) =
        readList (f1 + 1) [] (writeItems l ++ 41 :: 32 :: rest) by
      simp only [readList, skipWs_ws isWs_32]]
    rw [rt_list l (f1 + 1) [] (32 :: rest) hwfl hfl]
    simp [isWs_32]

/-- Round-trip for the element loop of a list: reading the serialized
elements followed by `) ` accumulates exactly those elements. -/
theorem rt_list (l : List Item) (fuel : Nat) (acc : List Item) (rest : List Nat)
    (hwf : wfItems l = true) (hf : neededL l ≤ fuel) :
    readList fuel acc (writeItems l ++ 41 :: rest) = .ok (acc ++ l, rest) := by
  obtain ⟨f, rfl⟩ : ∃ f, fuel = f + 1 := by
    have := neededL_pos l
    cases fuel with
    | zero => omega
    | succ f => exact ⟨f, rfl⟩
  cases l with
  | nil =>
    simp only [writeItems, List.nil_append, readList,
      skipWs_not_ws (by decide : isWs 41 = false)]
    simp
  | cons x xs =>
    simp only [wfItems, Bool.and_eq_true] at hwf
    obtain ⟨hwx, hwxs⟩ := hwf
    have hfx : needed x ≤ f := by
      simp only [neededL] at hf
      omega
    have hfxs : neededL xs ≤ f := by
      simp only [neededL] at hf
      omega
    obtain ⟨cx, tx, hwix, hcx, hcx41⟩ := writeItem_head x hwx
    have hstream : writeItems (x :: xs) ++ 41 :: rest =
        cx :: (tx ++ (writeItems xs ++ 41 :: rest)) := by
      simp [writeItems, hwix]
    rw [hstream]
    simp only [readList, skipWs_not_ws hcx, if_neg hcx41]
    rw [rt_item x f (writeItems xs ++ 41 :: rest) cx tx hwx hfx hwix]
    show readList f (acc ++ [x]) (writeItems xs ++ 41 :: rest) = .ok (acc ++ x :: xs, rest)
    rw [rt_list xs f (acc ++ [x]) rest hwxs hfxs]
    simp

end

/-- Round-trip through the public entry `svn_ra_svn_read_item`. -/
theorem readItemTop_writeItem (i : Item) (fuel : Nat) (rest : List Nat)
    (hwf : wfItem i = true) (hf : needed i ≤ fuel) :
    readItemTop fuel (writeItem i ++ rest) = .ok (i, rest) := by
  obtain ⟨c, t, hw, hws, _⟩ := writeItem_head i hwf
  rw [readItemTop, hw]
  simp only [List.cons_append, skipWs_not_ws hws]
  exact rt_item i fuel rest c t hwf hf hw

/-! ## Claim C2: item round-trip -/

/-- C2 (counterexample): the claim quantifies over *every* item, but the
number 2^63 does not round-trip: the legacy signed formatter emits
`-9223372036854775808 `, whose leading `-` the item reader rejects as
malformed, so `parse(serialize(i))` is an error, not `i`. -/
theorem C2_counterexample :
    readItemTop 1 (writeItem (.number 9223372036854775808)) = .error .malformed ∧
    readItemTop 1 (writeItem (.number 9223372036854775808)) ≠
      .ok (.number 9223372036854775808, []) := by
  refine ⟨rfl, ?_⟩
  rw [show readItemTop 1 (writeItem (.number 9223372036854775808)) = .error .malformed from rfl]
  intro h
  exact Except.noConfusion h

/-- C2 (amended): for every item whose numbers are below 2^63, whose
string lengths are below 2^64 and whose words are syntactically valid
(as the data model defines them), serializing with the item writers and
parsing with the item reader yields the item back and consumes exactly
the serialized bytes (any appended `rest` is returned untouched). -/
theorem C2_roundtrip (i : Item) (fuel : Nat) (rest : List Nat)
    (hwf : wfItem i = true) (hf : needed i ≤ fuel) :
    readItemTop fuel (writeItem i ++ rest) = .ok (i, rest) :=
  readItemTop_writeItem i fuel rest hwf hf

/-- C2 witness: the amended round-trip at a concrete nested item. -/
theorem C2_roundtrip_witness :
    readItemTop 10 (writeItem (.list [.number 3, .word [97, 98], .str [0, 104]]) ++ [32, 120]) =
      .ok (.list [.number 3, .word [97, 98], .str [0, 104]], [32, 120]) :=
  C2_roundtrip (.list [.number 3, .word [97, 98], .str [0, 104]]) 10 [32, 120]
    (by decide) (by decide)

/-! ## Claim C4: whitespace after non-list items -/

/-- C4 (code bug): `read_item`'s own comment keeps `c` as "the first
character at the end of the item so we can test to make sure it's
whitespace", but the digit branch returns early, so the test is never
reached for numbers and strings: `12x` parses as the number 12 and
`0:x` as the empty string, both consuming the non-whitespace terminator
without any error; only words (and lists) are checked, as `ab(` shows. -/
theorem C4_missing_whitespace_check :
    readItemTop 1 [49, 50, 120] = .ok (.number 12, []) ∧
    readItemTop 1 [48, 58, 120] = .ok (.str [], []) ∧
    readItemTop 1 [97, 98, 40] = .error .malformed :=
  ⟨rfl, rfl, rfl⟩

/-! ## Claim C7: numbers up to 2^63 - 1 round-trip -/

/-- C7: for every `n` with `0 ≤ n ≤ 2^63 - 1`, writing `n` with
`svn_ra_svn_write_number` and parsing the result with the item reader
yields exactly the number `n`. -/
theorem C7_number_roundtrip (n fuel : Nat) (rest : List Nat)
    (hn : n < I64) (hf : 1 ≤ fuel) :
    readItemTop fuel (writeNumber n ++ rest) = .ok (.number n, rest) := by
  have hw : writeItem (.number n) = writeNumber n := by simp [writeItem]
  rw [← hw]
  exact readItemTop_writeItem (.number n) fuel rest (by simp [wfItem]; exact hn)
    (by simp [needed]; omega)

/-- C7 witness: the boundary value 2^63 - 1 round-trips. -/
theorem C7_number_roundtrip_witness :
    readItemTop 1 (writeNumber 9223372036854775807 ++ []) =
      .ok (.number 9223372036854775807, []) :=
  C7_number_roundtrip 9223372036854775807 1 [] (by decide) (by decide)

/-! ## Claim C6: tuple parsing -/

theorem tupMatch_isSome : ∀ (fmt : List Nat) (items : List Item),
    (tupMatch fmt items).isSome = tupleAccepts fmt items := by
  intro fmt
  induction fmt with
  | nil => intro items; simp [tupMatch, tupleAccepts]
  | cons f fmt ih =>
    intro items
    cases items with
    | nil => simp [tupMatch, tupleAccepts]
    | cons it its =>
      rw [tupleAccepts]
      by_cases h1 : f = 110
      · subst h1; cases it <;> simp [tupMatch, kindMatches, Option.isSome_map, ih]
      by_cases h2 : f = 114
      · subst h2; cases it <;> simp [tupMatch, kindMatches, Option.isSome_map, ih]
      by_cases h3 : f = 115
      · subst h3; cases it <;> simp [tupMatch, kindMatches, Option.isSome_map, ih]
      by_cases h4 : f = 99
      · subst h4; cases it <;> simp [tupMatch, kindMatches, Option.isSome_map, ih]
      by_cases h5 : f = 119
      · subst h5; cases it <;> simp [tupMatch, kindMatches, Option.isSome_map, ih]
      by_cases h6 : f = 108
      · subst h6; cases it <;> simp [tupMatch, kindMatches, Option.isSome_map, ih]
      simp [tupMatch, kindMatches, h1, h2, h3, h4, h5, h6]

theorem tupleAccepts_length {fmt : List Nat} {items : List Item}
    (h : tupleAccepts fmt items = true) : fmt.length ≤ items.length := by
  induction fmt generalizing items with
  | nil => simp
  | cons f fmt ih =>
    cases items with
    | nil => simp [tupleAccepts] at h
    | cons it its =>
      simp only [tupleAccepts, Bool.and_eq_true] at h
      simp only [List.length_cons, Nat.add_le_add_iff_right]
      exact ih h.2

theorem tupleAccepts_pointwise : ∀ (fmt : List Nat) (items : List Item),
    tupleAccepts fmt items = true ↔
      (fmt.length ≤ items.length ∧
        ∀ k, k < fmt.length → kindMatches (fmt.getD k 0) (items.getD k (.number 0)) = true) := by
  intro fmt
  induction fmt with
  | nil => intro items; simp [tupleAccepts]
  | cons f fmt ih =>
    intro items
    cases items with
    | nil =>
      simp only [tupleAccepts, List.length_cons, List.length_nil]
      constructor
      · intro h; exact absurd h (by simp)
      · intro h; omega
    | cons it its =>
      simp only [tupleAccepts, Bool.and_eq_true, ih, List.length_cons,
        Nat.add_le_add_iff_right]
      constructor
      · rintro ⟨h1, h2, h3⟩
        refine ⟨h2, ?_⟩
        intro k hk
        cases k with
        | zero => simpa using h1
        | succ k => simpa using h3 k (by omega)
      · rintro ⟨h1, h2⟩
        refine ⟨by simpa using h2 0 (by omega), h1, ?_⟩
        intro k hk
        simpa using h2 (k + 1) (by omega)

/-- C6: tuple parsing succeeds exactly when the item list is at least
as long as the format and each position's kind matches its format
letter (`n`/`r` → Number, `s`/`c` → String, `w` → Word, `l` → List);
extra trailing items are accepted (the condition constrains only the
first `fmt.length` positions), and in every other case the result is
precisely the MalformedData error. -/
theorem C6_tuple_parsing (items : List Item) (fmt : List Nat) :
    ((∃ vals, vparseTuple items fmt = .ok vals) ↔
      (fmt.length ≤ items.length ∧
        ∀ k, k < fmt.length → kindMatches (fmt.getD k 0) (items.getD k (.number 0)) = true)) ∧
    (¬ (fmt.length ≤ items.length ∧
        ∀ k, k < fmt.length → kindMatches (fmt.getD k 0) (items.getD k (.number 0)) = true) →
      vparseTuple items fmt = .error .malformed) := by
  have hok : (∃ vals, vparseTuple items fmt = .ok vals) ↔ tupleAccepts fmt items = true := by
    constructor
    · rintro ⟨vals, hv⟩
      unfold vparseTuple at hv
      by_cases hlen : fmt.length ≤ items.length
      · rw [if_pos hlen] at hv
        have : (tupMatch fmt items).isSome = true := by
          cases hm : tupMatch fmt items with
          | none => rw [hm] at hv; exact Except.noConfusion hv
          | some v => simp
        rwa [tupMatch_isSome] at this
      · rw [if_neg hlen] at hv; exact Except.noConfusion hv
    · intro ha
      have hs : (tupMatch fmt items).isSome = true := by rw [tupMatch_isSome]; exact ha
      obtain ⟨v, hv⟩ := Option.isSome_iff_exists.mp hs
      exact ⟨v, by unfold vparseTuple; rw [if_pos (tupleAccepts_length ha), hv]⟩
  constructor
  · rw [hok]
    exact tupleAccepts_pointwise fmt items
  · intro hneg
    have hna : tupleAccepts fmt items = false := by
      rw [← Bool.not_eq_true]
      intro ha
      exact hneg ((tupleAccepts_pointwise fmt items).mp ha)
    unfold vparseTuple
    by_cases hlen : fmt.length ≤ items.length
    · rw [if_pos hlen]
      cases hm : tupMatch fmt items with
      | none => rfl
      | some v =>
        have : (tupMatch fmt items).isSome = true := by rw [hm]; rfl
        rw [tupMatch_isSome, hna] at this
        exact Bool.noConfusion this
    · rw [if_neg hlen]

/-- C6 witness: a concrete tuple with one extra trailing item parses;
a kind mismatch is precisely malformed. -/
theorem C6_tuple_parsing_witness :
    (∃ vals, vparseTuple [.number 3, .word [97], .list []] [110, 119] = .ok vals) ∧
    vparseTuple [.number 3] [119] = .error .malformed :=
  ⟨(C6_tuple_parsing [.number 3, .word [97], .list []] [110, 119]).1.mpr (by decide),
   (C6_tuple_parsing [.number 3] [119]).2 (by decide)⟩

/-! ## Claim C9: optional groups in tuple writing -/

theorem vwtLoop_argsOk : ∀ (fmt : List Nat) (args : List TArg) (opt : Int),
    argsOk fmt args = true → ∃ bs, vwtLoop opt fmt args = .ok (bs, 0) := by
  intro fmt
  induction fmt with
  | nil => intro args opt _; exact ⟨[], rfl⟩
  | cons f fmt ih =>
    intro args opt h
    by_cases h1 : f = 110
    · subst h1
      cases args with
      | nil => simp [argsOk] at h
      | cons a a1 =>
        cases a with
        | num n =>
          simp [argsOk] at h
          obtain ⟨bs, hbs⟩ := ih a1 opt h
          exact ⟨writeNumber n ++ bs, by simp [vwtLoop, hbs, Except.map]⟩
        | rev r => simp [argsOk] at h
        | str s => simp [argsOk] at h
        | cstr s => simp [argsOk] at h
        | word w => simp [argsOk] at h
    by_cases h2 : f = 114
    · subst h2
      cases args with
      | nil => simp [argsOk] at h
      | cons a a1 =>
        cases a with
        | num n => simp [argsOk] at h
        | rev r =>
          simp [argsOk] at h
          obtain ⟨hr, h'⟩ := h
          obtain ⟨bs, hbs⟩ := ih a1 opt h'
          exact ⟨writeNumber r.toNat ++ bs, by simp [vwtLoop, hbs, hr, Except.map]⟩
        | str s => simp [argsOk] at h
        | cstr s => simp [argsOk] at h
        | word w => simp [argsOk] at h
    by_cases h3 : f = 115
    · subst h3
      cases args with
      | nil => simp [argsOk] at h
      | cons a a1 =>
        cases a with
        | num n => simp [argsOk] at h
        | rev r => simp [argsOk] at h
        | str s =>
          cases s with
          | none => simp [argsOk] at h
          | some s =>
            simp [argsOk] at h
            obtain ⟨bs, hbs⟩ := ih a1 opt h
            exact ⟨writeString s ++ bs, by simp [vwtLoop, hbs, Except.map]⟩
        | cstr s => simp [argsOk] at h
        | word w => simp [argsOk] at h
    by_cases h4 : f = 99
    · subst h4
      cases args with
      | nil => simp [argsOk] at h
      | cons a a1 =>
        cases a with
        | num n => simp [argsOk] at h
        | rev r => simp [argsOk] at h
        | str s => simp [argsOk] at h
        | cstr s =>
          cases s with
          | none => simp [argsOk] at h
          | some s =>
            simp [argsOk] at h
            obtain ⟨bs, hbs⟩ := ih a1 opt h
            exact ⟨writeCString s ++ bs, by simp [vwtLoop, hbs, Except.map]⟩
        | word w => simp [argsOk] at h
    by_cases h5 : f = 119
    · subst h5
      cases args with
      | nil => simp [argsOk] at h
      | cons a a1 =>
        cases a with
        | num n => simp [argsOk] at h
        | rev r => simp [argsOk] at h
        | str s => simp [argsOk] at h
        | cstr s => simp [argsOk] at h
        | word w =>
          cases w with
          | none => simp [argsOk] at h
          | some w =>
            simp [argsOk] at h
            obtain ⟨bs, hbs⟩ := ih a1 opt h
            exact ⟨writeWord w ++ bs, by simp [vwtLoop, hbs, Except.map]⟩
    by_cases h6 : f = 93
    · subst h6
      have h' : argsOk fmt args = true := by simpa [argsOk] using h
      obtain ⟨bs, hbs⟩ := ih args (opt - 1) h'
      exact ⟨[41, 32] ++ bs, by simp [vwtLoop, hbs, Except.map]⟩
    by_cases h7 : f = 40
    · subst h7
      have h' : argsOk fmt args = true := by simpa [argsOk] using h
      obtain ⟨bs, hbs⟩ := ih args opt h'
      exact ⟨[40, 32] ++ bs, by simp [vwtLoop, hbs, Except.map]⟩
    by_cases h8 : f = 41
    · subst h8
      have h' : argsOk fmt args = true := by simpa [argsOk] using h
      obtain ⟨bs, hbs⟩ := ih args opt h'
      exact ⟨[41, 32] ++ bs, by simp [vwtLoop, hbs, Except.map]⟩
    · exact absurd h (by simp [argsOk, h1, h2, h3, h4, h5, h6, h7, h8])

/-- C9: for a format string containing no `[` whose arguments are all
present and valid (numbers for `n`, a valid revision for `r`, non-null
pointers for `s`/`c`/`w`), `svn_ra_svn_vwrite_tuple` neither fires an
assertion nor calls `abort`, and omits no value (omission count 0);
moreover, within an optional group (`[`...`]`, depth > 0) a missing
value is silently omitted and counted, while at depth 0 a missing value
fires the assertion. -/
theorem C9_optional_depth (fmt : List Nat) (args : List TArg)
    (_h91 : 91 ∉ fmt) (hargs : argsOk fmt args = true) :
    (∃ bs, vwriteTuple fmt args = .ok (bs, 0)) ∧
    vwriteTuple [91, 115, 93] [.str none] = .ok ([40, 32, 40, 32, 41, 32, 41, 32], 1) ∧
    vwriteTuple [115] [.str none] = .error .assertFail := by
  refine ⟨?_, rfl, rfl⟩
  obtain ⟨bs, hbs⟩ := vwtLoop_argsOk fmt args 0 hargs
  exact ⟨[40, 32] ++ bs ++ [41, 32], by simp [vwriteTuple, hbs, Except.map]⟩

/-- C9 witness: a concrete `[`-free format with present, valid
arguments writes with no assertion and no omission. -/
theorem C9_optional_depth_witness :
    ∃ bs, vwriteTuple [110, 114, 40, 119, 41] [.num 3, .rev 5, .word (some [97])] =
      .ok (bs, 0) :=
  (C9_optional_depth [110, 114, 40, 119, 41] [.num 3, .rev 5, .word (some [97])]
    (by decide) (by decide)).1

/-! ## Claim C5: failure chain round-trip -/

theorem strlenPrefix_eq_self {s : List Nat} (h : 0 ∉ s) : strlenPrefix s = s := by
  induction s with
  | nil => rfl
  | cons b t ih =>
    have hb : b ≠ 0 := fun hb0 => h (hb0 ▸ List.mem_cons_self b t)
    have ht : 0 ∉ t := fun ht0 => h (List.mem_cons_of_mem b ht0)
    simp [strlenPrefix, hb, List.takeWhile_cons]
    simpa [strlenPrefix] using ih ht

theorem writeErrTuple_eq (r : ErrRec) :
    writeErrTuple r = [40, 32] ++ writeNumber r.aprErr ++ writeCString r.message ++
      writeCString r.file ++ writeNumber r.line ++ [41, 32] := by
  simp [writeErrTuple, vwriteTuple, vwtLoop, Except.map]

theorem writeItem_length_pos (i : Item) : 1 ≤ (writeItem i).length := by
  cases i with
  | number n => simp [writeItem, writeNumber]
  | str s => simp [writeItem, writeString]; omega
  | word w => simp [writeItem, writeWord]
  | list l => simp [writeItem]

mutual

theorem needed_le_writeItem (i : Item) : needed i ≤ (writeItem i).length := by
  cases i with
  | number n => simp [writeItem, writeNumber, needed]
  | str s => simp [writeItem, writeString, needed]; omega
  | word w => simp [writeItem, writeWord, needed]
  | list l =>
    have h := neededL_le_writeItems l
    simp only [writeItem, needed, List.length_append]
    simp only [List.length_cons, List.length_nil]
    omega

theorem neededL_le_writeItems (l : List Item) : neededL l ≤ (writeItems l).length + 2 := by
  cases l with
  | nil => simp [neededL, writeItems]
  | cons x xs =>
    have h1 := needed_le_writeItem x
    have h2 := neededL_le_writeItems xs
    have h3 := writeItem_length_pos x
    simp only [neededL, writeItems, List.length_append]
    omega

end

theorem writeErrChain_items (ch : List ErrRec) :
    writeErrChain ch = writeItems (ch.map (fun r => Item.list [.number r.aprErr,
      .str (strlenPrefix r.message), .str (strlenPrefix r.file), .number r.line])) := by
  induction ch with
  | nil => rfl
  | cons r t ih =>
    simp only [writeErrChain, List.map_cons, writeItems, ih, writeErrTuple_eq, writeCString]
    simp [writeItem, writeItems]

theorem writeCmdFailure_as_item (ch : List ErrRec) :
    writeCmdFailure ch = writeItem (.list [.word failureWordBytes,
      .list (ch.map (fun r => Item.list [.number r.aprErr, .str (strlenPrefix r.message),
        .str (strlenPrefix r.file), .number r.line]))]) := by
  simp [writeCmdFailure, writeItem, writeItems, writeErrChain_items, writeWord]

theorem map_item_strlen {ch : List ErrRec} (h : wfChain ch = true) :
    ch.map (fun r => Item.list [.number r.aprErr, .str (strlenPrefix r.message),
        .str (strlenPrefix r.file), .number r.line]) =
      ch.map (fun r => Item.list [.number r.aprErr, .str r.message,
        .str r.file, .number r.line]) := by
  induction ch with
  | nil => rfl
  | cons r t ih =>
    simp only [wfChain, Bool.and_eq_true, decide_eq_true_eq] at h
    obtain ⟨⟨⟨⟨⟨⟨_, _⟩, _⟩, _⟩, hm⟩, hf⟩, ht⟩ := h
    simp only [List.map_cons, strlenPrefix_eq_self hm, strlenPrefix_eq_self hf, ih ht]

theorem wfItems_of_wfChain {ch : List ErrRec} (h : wfChain ch = true) :
    wfItems (ch.map (fun r => Item.list [.number r.aprErr, .str r.message,
      .str r.file, .number r.line])) = true := by
  induction ch with
  | nil => rfl
  | cons r t ih =>
    simp only [wfChain, Bool.and_eq_true, decide_eq_true_eq] at h
    obtain ⟨⟨⟨⟨⟨⟨ha, hl⟩, hml⟩, hfl⟩, _⟩, _⟩, ht⟩ := h
    simp only [List.map_cons, wfItems, Bool.and_eq_true]
    refine ⟨?_, ih ht⟩
    simp [wfItem, wfItems, ha, hl, hml, hfl]

theorem buildErrChain_map (ch : List ErrRec) :
    buildErrChain (ch.map (fun r => Item.list [.number r.aprErr, .str r.message,
      .str r.file, .number r.line])) = .ok ch := by
  induction ch with
  | nil => rfl
  | cons r t ih =>
    simp only [List.map_cons, buildErrChain, ih]
    simp [parseErrEntry, vparseTuple, tupMatch, Option.map]

/-- C5 (counterexample): the chain `210004 → 125002` (outermost error
first, root cause last) round-trips to the identical chain on the peer,
so the peer's innermost cause is the `125002` record — not the sender's
outermost `210004` record, as the claim states. -/
theorem C5_counterexample :
    readCmdResponse [] (writeCmdFailure
        [⟨210004, [97], [102], 42⟩, ⟨125002, [98], [103], 17⟩]) =
      .ok (.failure [⟨210004, [97], [102], 42⟩, ⟨125002, [98], [103], 17⟩], []) ∧
    ([⟨210004, [97], [102], 42⟩, ⟨125002, [98], [103], 17⟩] : List ErrRec).getLast? ≠
      some ⟨210004, [97], [102], 42⟩ :=
  ⟨rfl, by decide⟩

/-- C5 (amended): serializing a non-empty error chain with
`svn_ra_svn_write_cmd_failure` and parsing it with
`svn_ra_svn_read_cmd_response` yields the identical chain on the peer
(codes and lines below 2^63, messages and files NUL-free): the
innermost cause on the peer equals the innermost — not the outermost —
cause on the sender. -/
theorem wfItem_list (l : List Item) : wfItem (.list l) = wfItems l := by
  simp [wfItem]

theorem wfItems_cons (i : Item) (t : List Item) :
    wfItems (i :: t) = (wfItem i && wfItems t) := by
  simp [wfItems]

theorem C5_failure_roundtrip (ch : List ErrRec) (fmt rest : List Nat)
    (hne : ch ≠ []) (hwf : wfChain ch = true) :
    readCmdResponse fmt (writeCmdFailure ch ++ rest) = .ok (.failure ch, rest) := by
  obtain ⟨r0, t0, rfl⟩ : ∃ r0 t0, ch = r0 :: t0 := by
    cases ch with
    | nil => exact absurd rfl hne
    | cons a b => exact ⟨a, b, rfl⟩
  set IT := Item.list [.word failureWordBytes,
    .list ((r0 :: t0).map (fun r => Item.list [.number r.aprErr, .str r.message,
      .str r.file, .number r.line]))] with hIT
  have hitem : writeCmdFailure (r0 :: t0) = writeItem IT := by
    rw [writeCmdFailure_as_item, hIT, map_item_strlen hwf]
  have hwfl : wfItems ((r0 :: t0).map (fun r => Item.list [.number r.aprErr, .str r.message,
      .str r.file, .number r.line])) = true := wfItems_of_wfChain hwf
  have hwfIT : wfItem IT = true := by
    rw [hIT, wfItem_list, wfItems_cons, wfItems_cons, wfItem_list]
    rw [(by decide : wfItem (Item.word failureWordBytes) = true), hwfl]
    rfl
  have hread : readItemTop ((writeCmdFailure (r0 :: t0) ++ rest).length + 1)
      (writeCmdFailure (r0 :: t0) ++ rest) = .ok (IT, rest) := by
    rw [hitem]
    exact readItemTop_writeItem IT _ rest hwfIT (by
      have h1 := needed_le_writeItem IT
      simp only [List.length_append]
      omega)
  have hvp : vparseTuple [.word failureWordBytes,
      .list ((r0 :: t0).map (fun r => Item.list [.number r.aprErr, .str r.message,
        .str r.file, .number r.line]))] [119, 108] =
      .ok [.word failureWordBytes, .list ((r0 :: t0).map (fun r =>
        Item.list [.number r.aprErr, .str r.message, .str r.file, .number r.line]))] := by
    simp [vparseTuple, tupMatch, Option.map]
  have hb := buildErrChain_map (r0 :: t0)
  simp only [List.map_cons] at hb
  simp only [List.map_cons] at hvp
  unfold readCmdResponse
  rw [hread, hIT]
  simp only [List.map_cons, hvp, hb]
  simp [successWordBytes, failureWordBytes]

/-- C5 witness: a concrete two-link chain round-trips to itself. -/
theorem C5_failure_roundtrip_witness :
    readCmdResponse [] (writeCmdFailure [⟨3, [97], [], 1⟩, ⟨4, [], [98], 2⟩] ++ [32]) =
      .ok (.failure [⟨3, [97], [], 1⟩, ⟨4, [], [98], 2⟩], [32]) :=
  C5_failure_roundtrip [⟨3, [97], [], 1⟩, ⟨4, [], [98], 2⟩] [] [32]
    (by decide) (by decide)

/-! ## Claim C8: the connection buffer invariant -/

theorem wf_createConn (input : List Nat) : wfConn (createConn input) := by
  refine ⟨Nat.le_refl 0, ?_, ?_⟩ <;> simp [createConn, BUFSZ]

theorem wf_writebufPush (c : Conn) (d : List Nat) (h : wfConn c) :
    wfConn (writebufPush c d).1 := by
  obtain ⟨h1, h2, h3⟩ := h
  refine ⟨h1, h2, ?_⟩
  simp only [writebufPush, List.length_append, List.length_take]
  omega

theorem wf_writebufFlush (c : Conn) (h : wfConn c) : wfConn (writebufFlush c).2.1 := by
  unfold writebufFlush
  by_cases h0 : c.writeBuf.length = 0
  · rw [if_pos h0]; exact h
  · rw [if_neg h0]
    by_cases h1 : c.wFail = true
    · rw [if_pos h1]; exact h
    · rw [if_neg h1]
      obtain ⟨ha, hb, _⟩ := h
      exact ⟨ha, hb, by simp [BUFSZ]⟩

theorem writebufFlush_wFail (c : Conn) : (writebufFlush c).2.1.wFail = c.wFail := by
  unfold writebufFlush
  by_cases h0 : c.writeBuf.length = 0
  · rw [if_pos h0]
  · rw [if_neg h0]
    by_cases h1 : c.wFail = true
    · rw [if_pos h1]
    · rw [if_neg h1]

theorem writebufFlush_trace (c : Conn) : (writebufFlush c).2.2 = [.flush] := by
  unfold writebufFlush
  by_cases h0 : c.writeBuf.length = 0
  · rw [if_pos h0]
  · rw [if_neg h0]
    by_cases h1 : c.wFail = true
    · rw [if_pos h1]
    · rw [if_neg h1]

theorem writebufFlush_noFail (c : Conn) (h : c.wFail = false) :
    (writebufFlush c).2.1.writeBuf = [] := by
  unfold writebufFlush
  by_cases h0 : c.writeBuf.length = 0
  · rw [if_pos h0]; exact List.length_eq_zero.mp h0
  · rw [if_neg h0, if_neg (by simp [h])]

theorem wf_readbufDrain (c : Conn) (len : Nat) (h : wfConn c) :
    wfConn (readbufDrain c len).2 := by
  obtain ⟨h1, h2, h3⟩ := h
  refine ⟨?_, h2, h3⟩
  simp only [readbufDrain]
  omega

theorem readbufDrain_wFail (c : Conn) (len : Nat) :
    (readbufDrain c len).2.wFail = c.wFail := rfl

theorem readbufDrain_writeBuf (c : Conn) (len : Nat) :
    (readbufDrain c len).2.writeBuf = c.writeBuf := rfl

theorem wf_readbufFill (c : Conn) (h : wfConn c) : wfConn (readbufFill c).2.1 := by
  unfold readbufFill
  by_cases h0 : c.readPtr = c.readBuf.length
  · rw [if_pos h0]
    have hf := wf_writebufFlush c h
    rcases hfl : writebufFlush c with ⟨r, c1, tr⟩
    rw [hfl] at hf
    simp only
    by_cases hc : (c1.sockIn.take BUFSZ).length = 0
    · rw [if_pos hc]; exact hf
    · rw [if_neg hc]
      obtain ⟨_, _, h3⟩ := hf
      exact ⟨Nat.zero_le _, by simp, h3⟩
  · rw [if_neg h0]; exact h

theorem readbufFill_wFail (c : Conn) : (readbufFill c).2.1.wFail = c.wFail := by
  unfold readbufFill
  by_cases h0 : c.readPtr = c.readBuf.length
  · rw [if_pos h0]
    rcases hfl : writebufFlush c with ⟨r, c1, tr⟩
    have hw : c1.wFail = c.wFail := by
      have := writebufFlush_wFail c
      rw [hfl] at this
      exact this
    simp only
    by_cases hc : (c1.sockIn.take BUFSZ).length = 0
    · rw [if_pos hc]; exact hw
    · rw [if_neg hc]; exact hw
  · rw [if_neg h0]

theorem readbufFill_ok_state (c : Conn) (hok : (readbufFill c).1 = .ok ()) :
    (readbufFill c).2.1.readPtr = 0 ∧ 1 ≤ (readbufFill c).2.1.readBuf.length := by
  unfold readbufFill at *
  by_cases h0 : c.readPtr = c.readBuf.length
  · rw [if_pos h0] at *
    rcases hfl : writebufFlush c with ⟨r, c1, tr⟩
    rw [hfl] at hok
    simp only at hok ⊢
    by_cases hc : (c1.sockIn.take BUFSZ).length = 0
    · rw [if_pos hc] at hok; exact Except.noConfusion hok
    · rw [if_neg hc] at *
      refine ⟨rfl, ?_⟩
      show 1 ≤ (List.take BUFSZ c1.sockIn).length
      omega
  · rw [if_neg h0] at hok; exact Except.noConfusion hok

theorem wf_readbufGetchar (c : Conn) (h : wfConn c) : wfConn (readbufGetchar c).2.1 := by
  unfold readbufGetchar
  by_cases h0 : c.readPtr = c.readBuf.length
  · rw [if_pos h0]
    rcases hfl : readbufFill c with ⟨r, c1, tr⟩
    have hf : wfConn c1 := by
      have := wf_readbufFill c h
      rw [hfl] at this
      exact this
    cases r with
    | error e => exact hf
    | ok u =>
      have hst : c1.readPtr = 0 ∧ 1 ≤ c1.readBuf.length := by
        have := readbufFill_ok_state c (by rw [hfl])
        rw [hfl] at this
        exact this
      obtain ⟨hp, hl⟩ := hst
      obtain ⟨_, h2, h3⟩ := hf
      refine ⟨?_, h2, h3⟩
      show c1.readPtr + 1 ≤ c1.readBuf.length
      omega
  · rw [if_neg h0]
    obtain ⟨h1, h2, h3⟩ := h
    refine ⟨?_, h2, h3⟩
    show c.readPtr + 1 ≤ c.readBuf.length
    omega

theorem wf_rbrFillLoop : ∀ (f : Nat) (c : Conn) (acc : List Nat) (rem : Nat),
    wfConn c → wfConn (rbrFillLoop f c acc rem).2.1 := by
  intro f
  induction f with
  | zero => intro c acc rem h; exact h
  | succ f ih =>
    intro c acc rem h
    unfold rbrFillLoop
    by_cases h0 : rem = 0
    · rw [if_pos h0]; exact h
    · rw [if_neg h0]
      rcases hfl : readbufFill c with ⟨r, c1, tr⟩
      have hf : wfConn c1 := by
        have := wf_readbufFill c h
        rw [hfl] at this
        exact this
      cases r with
      | error e => exact hf
      | ok u =>
        simp only
        rcases hdr : readbufDrain c1 rem with ⟨got, c2⟩
        have hd : wfConn c2 := by
          have := wf_readbufDrain c1 rem hf
          rw [hdr] at this
          exact this
        rcases hrec : rbrFillLoop f c2 (acc ++ got) (rem - got.length) with ⟨r3, c3, tr3⟩
        have := ih c2 (acc ++ got) (rem - got.length) hd
        rw [hrec] at this
        simp only
        exact this

theorem wf_rbrDirectLoop : ∀ (f : Nat) (c : Conn) (acc : List Nat) (rem : Nat),
    wfConn c → wfConn (rbrDirectLoop f c acc rem).2.1 := by
  intro f
  induction f with
  | zero => intro c acc rem h; exact h
  | succ f ih =>
    intro c acc rem h
    unfold rbrDirectLoop
    by_cases h0 : BUFSZ < rem
    · rw [if_pos h0]
      rcases hfl : writebufFlush c with ⟨r, c1, tr⟩
      have hf : wfConn c1 := by
        have := wf_writebufFlush c h
        rw [hfl] at this
        exact this
      simp only
      by_cases hc : (c1.sockIn.take rem).length = 0
      · rw [if_pos hc]; exact hf
      · rw [if_neg hc]
        have hupd : wfConn { c1 with sockIn := c1.sockIn.drop (c1.sockIn.take rem).length } := by
          obtain ⟨a, b, d⟩ := hf
          exact ⟨a, b, d⟩
        rcases hrec : rbrDirectLoop f { c1 with sockIn := c1.sockIn.drop (c1.sockIn.take rem).length }
            (acc ++ c1.sockIn.take rem) (rem - (c1.sockIn.take rem).length) with ⟨r3, c3, tr3⟩
        have := ih _ (acc ++ c1.sockIn.take rem) (rem - (c1.sockIn.take rem).length) hupd
        rw [hrec] at this
        simp only
        exact this
    · rw [if_neg h0]
      exact wf_rbrFillLoop (f + 1) c acc rem h

theorem wf_readbufRead (fuel : Nat) (c : Conn) (len : Nat) (h : wfConn c) :
    wfConn (readbufRead fuel c len).2.1 := by
  unfold readbufRead
  rcases hdr : readbufDrain c len with ⟨got, c1⟩
  have hd : wfConn c1 := by
    have := wf_readbufDrain c len h
    rw [hdr] at this
    exact this
  exact wf_rbrDirectLoop fuel c1 got (len - got.length) hd

theorem wf_writebufWriteDirect (c : Conn) (d : List Nat) (h : wfConn c) :
    wfConn (writebufWriteDirect c d).2.1 := by
  unfold writebufWriteDirect
  by_cases h0 : BUFSZ < d.length
  · rw [if_pos h0]
    by_cases h1 : c.wFail = true
    · rw [if_pos h1]; exact h
    · rw [if_neg h1]
      obtain ⟨a, b, e⟩ := h
      exact ⟨a, b, e⟩
  · rw [if_neg h0]
    exact wf_writebufPush c d h

theorem wf_writebufWrite (c : Conn) (d : List Nat) (h : wfConn c) :
    wfConn (writebufWrite c d).2.1 := by
  unfold writebufWrite
  by_cases h0 : 0 < c.writeBuf.length ∧ BUFSZ < c.writeBuf.length + d.length
  · rw [if_pos h0]
    rcases hp : writebufPush c d with ⟨c1, consumed⟩
    have h1 : wfConn c1 := by
      have := wf_writebufPush c d h
      rw [hp] at this
      exact this
    simp only
    rcases hfl : writebufFlush c1 with ⟨r, c2, tr⟩
    have h2 : wfConn c2 := by
      have := wf_writebufFlush c1 h1
      rw [hfl] at this
      exact this
    cases r with
    | error e => exact h2
    | ok u =>
      exact wf_writebufWriteDirect c2 (d.drop consumed) h2
  · rw [if_neg h0]
    exact wf_writebufWriteDirect c d h

/-- C8: the connection invariant `read_ptr ≤ read_end ≤ capacity`,
`0 ≤ write_pos ≤ capacity` holds after `svn_ra_svn_create_conn` and is
preserved by every buffer operation: `writebuf_push`, `writebuf_flush`,
`readbuf_drain`, `readbuf_fill`, and the `getchar`/`read`/`write`
operations built on them (the `Nat` lower bounds hold inherently). -/
theorem C8_buffer_invariant :
    (∀ input, wfConn (createConn input)) ∧
    (∀ c d, wfConn c → wfConn (writebufPush c d).1) ∧
    (∀ c, wfConn c → wfConn (writebufFlush c).2.1) ∧
    (∀ c len, wfConn c → wfConn (readbufDrain c len).2) ∧
    (∀ c, wfConn c → wfConn (readbufFill c).2.1) ∧
    (∀ c, wfConn c → wfConn (readbufGetchar c).2.1) ∧
    (∀ fuel c len, wfConn c → wfConn (readbufRead fuel c len).2.1) ∧
    (∀ c d, wfConn c → wfConn (writebufWrite c d).2.1) :=
  ⟨wf_createConn, wf_writebufPush, wf_writebufFlush, wf_readbufDrain, wf_readbufFill,
    wf_readbufGetchar, fun fuel c len => wf_readbufRead fuel c len, wf_writebufWrite⟩

/-- C8 witness: the invariant holds at a concrete connection and is
preserved by a concrete operation on it. -/
theorem C8_buffer_invariant_witness :
    wfConn (readbufGetchar (createConn [7, 8, 9])).2.1 :=
  C8_buffer_invariant.2.2.2.2.2.1 (createConn [7, 8, 9]) (by decide)

/-! ## Claim C1: flush before every blocking read -/

theorem readsFlushed_mono {t : List Ev} (h : readsFlushed false t = true) (b : Bool) :
    readsFlushed b t = true := by
  cases t with
  | nil => rfl
  | cons e r =>
    cases e with
    | flush => exact h
    | sockRead p => simp [readsFlushed] at h

theorem readsFlushed_append {t1 t2 : List Ev} : ∀ (b : Bool),
    readsFlushed b t1 = true → readsFlushed false t2 = true →
    readsFlushed b (t1 ++ t2) = true := by
  induction t1 with
  | nil => intro b _ h2; exact readsFlushed_mono h2 b
  | cons e r ih =>
    intro b h1 h2
    cases e with
    | flush =>
      show readsFlushed true (r ++ t2) = true
      exact ih true h1 h2
    | sockRead p =>
      have h1' : b = true ∧ readsFlushed false r = true := by
        simpa [readsFlushed, Bool.and_eq_true] using h1
      show (b && readsFlushed false (r ++ t2)) = true
      simp [h1'.1, ih false h1'.2 h2]

theorem pendingsZero_append (t1 t2 : List Ev) :
    pendingsZero (t1 ++ t2) = (pendingsZero t1 && pendingsZero t2) := by
  induction t1 with
  | nil => simp [pendingsZero]
  | cons e r ih =>
    cases e with
    | flush => simp only [List.cons_append, pendingsZero, List.append_eq, ih]
    | sockRead p => simp only [List.cons_append, pendingsZero, List.append_eq, ih, Bool.and_assoc]

theorem readbufFill_trace (c : Conn) :
    (readbufFill c).2.2 = [] ∨
    (readbufFill c).2.2 = [.flush, .sockRead (writebufFlush c).2.1.writeBuf.length] := by
  unfold readbufFill
  by_cases h0 : c.readPtr = c.readBuf.length
  · rw [if_pos h0]
    right
    rcases hfl : writebufFlush c with ⟨r, c1, tr⟩
    have htr : tr = [.flush] := by
      have h5 := writebufFlush_trace c
      rw [hfl] at h5
      exact h5
    subst htr
    by_cases hc : (c1.sockIn.take BUFSZ).length = 0
    · simp only [if_pos hc]; rfl
    · simp only [if_neg hc]; rfl
  · rw [if_neg h0]
    left
    rfl

theorem readbufFill_readsFlushed (c : Conn) :
    readsFlushed false (readbufFill c).2.2 = true := by
  rcases readbufFill_trace c with h | h <;> rw [h] <;> rfl

theorem readbufFill_pendingsZero (c : Conn) (h : c.wFail = false) :
    pendingsZero (readbufFill c).2.2 = true := by
  rcases readbufFill_trace c with ht | ht <;> rw [ht]
  · rfl
  · have hz : (writebufFlush c).2.1.writeBuf = [] := writebufFlush_noFail c h
    simp [pendingsZero, hz]

theorem rbrFillLoop_readsFlushed : ∀ (f : Nat) (c : Conn) (acc : List Nat) (rem : Nat),
    readsFlushed false (rbrFillLoop f c acc rem).2.2 = true := by
  intro f
  induction f with
  | zero => intro c acc rem; rfl
  | succ f ih =>
    intro c acc rem
    unfold rbrFillLoop
    by_cases h0 : rem = 0
    · rw [if_pos h0]; rfl
    · rw [if_neg h0]
      have hfillt := readbufFill_readsFlushed c
      rcases hfl : readbufFill c with ⟨r, c1, tr⟩
      rw [hfl] at hfillt
      cases r with
      | error e => exact hfillt
      | ok u =>
        simp only
        rcases hdr : readbufDrain c1 rem with ⟨got, c2⟩
        rcases hrec : rbrFillLoop f c2 (acc ++ got) (rem - got.length) with ⟨r3, c3, tr3⟩
        have h3 := ih c2 (acc ++ got) (rem - got.length)
        rw [hrec] at h3
        simp only
        exact readsFlushed_append false hfillt h3

theorem rbrFillLoop_pendingsZero : ∀ (f : Nat) (c : Conn) (acc : List Nat) (rem : Nat),
    c.wFail = false → pendingsZero (rbrFillLoop f c acc rem).2.2 = true := by
  intro f
  induction f with
  | zero => intro c acc rem _; rfl
  | succ f ih =>
    intro c acc rem hw
    unfold rbrFillLoop
    by_cases h0 : rem = 0
    · rw [if_pos h0]; rfl
    · rw [if_neg h0]
      have hfillt := readbufFill_pendingsZero c hw
      have hfw := readbufFill_wFail c
      rcases hfl : readbufFill c with ⟨r, c1, tr⟩
      rw [hfl] at hfillt hfw
      cases r with
      | error e => exact hfillt
      | ok u =>
        simp only
        rcases hdr : readbufDrain c1 rem with ⟨got, c2⟩
        have hw2 : c2.wFail = false := by
          have h7 := readbufDrain_wFail c1 rem
          rw [hdr] at h7
          rw [h7, hfw, hw]
        rcases hrec : rbrFillLoop f c2 (acc ++ got) (rem - got.length) with ⟨r3, c3, tr3⟩
        have h3 := ih c2 (acc ++ got) (rem - got.length) hw2
        rw [hrec] at h3
        simp only
        rw [pendingsZero_append, hfillt, h3]
        rfl

theorem rbrDirectLoop_readsFlushed : ∀ (f : Nat) (c : Conn) (acc : List Nat) (rem : Nat),
    readsFlushed false (rbrDirectLoop f c acc rem).2.2 = true := by
  intro f
  induction f with
  | zero => intro c acc rem; rfl
  | succ f ih =>
    intro c acc rem
    unfold rbrDirectLoop
    by_cases h0 : BUFSZ < rem
    · rw [if_pos h0]
      rcases hfl : writebufFlush c with ⟨r, c1, tr⟩
      have htr : tr = [.flush] := by
        have h5 := writebufFlush_trace c
        rw [hfl] at h5
        exact h5
      subst htr
      simp only
      by_cases hc : (c1.sockIn.take rem).length = 0
      · rw [if_pos hc]; rfl
      · rw [if_neg hc]
        rcases hrec : rbrDirectLoop f { c1 with sockIn := c1.sockIn.drop (c1.sockIn.take rem).length }
            (acc ++ c1.sockIn.take rem) (rem - (c1.sockIn.take rem).length) with ⟨r3, c3, tr3⟩
        have h3 := ih { c1 with sockIn := c1.sockIn.drop (c1.sockIn.take rem).length }
          (acc ++ c1.sockIn.take rem) (rem - (c1.sockIn.take rem).length)
        rw [hrec] at h3
        simp only
        exact readsFlushed_append false (by rfl) h3
    · rw [if_neg h0]
      exact rbrFillLoop_readsFlushed (f + 1) c acc rem

theorem rbrDirectLoop_pendingsZero : ∀ (f : Nat) (c : Conn) (acc : List Nat) (rem : Nat),
    c.wFail = false → pendingsZero (rbrDirectLoop f c acc rem).2.2 = true := by
  intro f
  induction f with
  | zero => intro c acc rem _; rfl
  | succ f ih =>
    intro c acc rem hw
    unfold rbrDirectLoop
    by_cases h0 : BUFSZ < rem
    · rw [if_pos h0]
      have hzb := writebufFlush_noFail c hw
      have hfw := writebufFlush_wFail c
      rcases hfl : writebufFlush c with ⟨r, c1, tr⟩
      rw [hfl] at hzb hfw
      simp only at hzb hfw
      have htr : tr = [.flush] := by
        have h5 := writebufFlush_trace c
        rw [hfl] at h5
        exact h5
      subst htr
      simp only
      by_cases hc : (c1.sockIn.take rem).length = 0
      · rw [if_pos hc]
        simp [pendingsZero, hzb]
      · rw [if_neg hc]
        rcases hrec : rbrDirectLoop f { c1 with sockIn := c1.sockIn.drop (c1.sockIn.take rem).length }
            (acc ++ c1.sockIn.take rem) (rem - (c1.sockIn.take rem).length) with ⟨r3, c3, tr3⟩
        have h3 := ih { c1 with sockIn := c1.sockIn.drop (c1.sockIn.take rem).length }
          (acc ++ c1.sockIn.take rem) (rem - (c1.sockIn.take rem).length)
          (by show c1.wFail = false; rw [hfw, hw])
        rw [hrec] at h3
        simp only
        rw [pendingsZero_append]
        have hz1 : pendingsZero ([Ev.flush] ++ [Ev.sockRead c1.writeBuf.length]) = true := by
          simp [pendingsZero, hzb]
        rw [hz1, h3]
        rfl
    · rw [if_neg h0]
      exact rbrFillLoop_pendingsZero (f + 1) c acc rem hw

/-- C1: in `readbuf_fill` and in `readbuf_read` (including its
direct-from-socket path), every socket read is immediately preceded by
an invocation of the write-buffer flush, on every execution path; and
when socket writes do not fail, every socket read is issued with zero
buffered outbound bytes — no reachable state performs a blocking read
while unflushed outbound bytes remain. -/
theorem C1_flush_before_read (c : Conn) (fuel len : Nat) :
    (readsFlushed false (readbufFill c).2.2 = true ∧
      readsFlushed false (readbufRead fuel c len).2.2 = true) ∧
    (c.wFail = false →
      pendingsZero (readbufFill c).2.2 = true ∧
      pendingsZero (readbufRead fuel c len).2.2 = true) := by
  have hd : (readbufDrain c len).2.wFail = c.wFail := readbufDrain_wFail c len
  constructor
  · refine ⟨readbufFill_readsFlushed c, ?_⟩
    unfold readbufRead
    exact rbrDirectLoop_readsFlushed fuel (readbufDrain c len).2 (readbufDrain c len).1
      (len - (readbufDrain c len).1.length)
  · intro hw
    refine ⟨readbufFill_pendingsZero c hw, ?_⟩
    unfold readbufRead
    exact rbrDirectLoop_pendingsZero fuel (readbufDrain c len).2 (readbufDrain c len).1
      (len - (readbufDrain c len).1.length) (by rw [hd, hw])

/-- C1 witness: at a concrete connection with pending outbound bytes
and a working socket, the reads of `readbuf_fill` and `readbuf_read`
are flushed and see zero pending bytes. -/
theorem C1_flush_before_read_witness :
    pendingsZero (readbufFill
      { sockIn := [7], sockOut := [], readBuf := [], readPtr := 0,
        writeBuf := [1, 2], wFail := false }).2.2 = true :=
  ((C1_flush_before_read
    { sockIn := [7], sockOut := [], readBuf := [], readPtr := 0,
      writeBuf := [1, 2], wFail := false } 1 0).2 rfl).1

/-! ## Claim C10: pre-read flush failures are discarded -/

/-- C10: when the write-buffer flush that precedes a blocking read
fails (failing socket writes, non-empty write buffer), both
`readbuf_fill` and the direct-from-socket path of `readbuf_read`
discard the error value returned by `writebuf_flush` and read anyway:
the operation returns success (the transport failure is never
surfaced), with the unflushed bytes still sitting in the write
buffer. -/
theorem C10_flush_error_ignored (c : Conn)
    (hw : c.wFail = true) (hb : c.writeBuf ≠ []) (hp : c.readPtr = c.readBuf.length) :
    (c.sockIn ≠ [] →
      (readbufFill c).1 = .ok () ∧ (readbufFill c).2.1.writeBuf = c.writeBuf) ∧
    (∀ fuel len, 2 ≤ fuel → BUFSZ < len → len ≤ c.sockIn.length →
      (∃ bs, (readbufRead fuel c len).1 = .ok bs) ∧
      (readbufRead fuel c len).2.1.writeBuf = c.writeBuf) := by
  have hlen0 : ¬ (c.writeBuf.length = 0) := fun h => hb (List.length_eq_zero.mp h)
  have hfl : writebufFlush c = (.error .ioErr, c, [.flush]) := by
    unfold writebufFlush
    rw [if_neg hlen0, if_pos hw]
  constructor
  · intro hsin
    have hc : ¬ ((c.sockIn.take BUFSZ).length = 0) := by
      simp only [List.length_take]
      have h1 : 0 < c.sockIn.length := List.length_pos.mpr hsin
      have h2 : 0 < BUFSZ := by decide
      omega
    unfold readbufFill
    rw [if_pos hp, hfl]
    simp only
    rw [if_neg hc]
    exact ⟨rfl, rfl⟩
  · intro fuel len hfuel hbig hlen
    obtain ⟨f1, rfl⟩ : ∃ f1, fuel = f1 + 1 + 1 := ⟨fuel - 2, by omega⟩
    have hdr : readbufDrain c len = ([], c) := by
      unfold readbufDrain
      rw [hp]
      simp only [Nat.sub_self, Nat.zero_min, List.take_zero, Nat.add_zero]
      rw [← hp]
    have hchunklen : (c.sockIn.take len).length = len := by
      simp only [List.length_take]
      omega
    have hc2 : ¬ ((c.sockIn.take len).length = 0) := by
      rw [hchunklen]
      have h2 : 0 < BUFSZ := by decide
      omega
    unfold readbufRead
    rw [hdr]
    simp only [List.length_nil, Nat.sub_zero]
    unfold rbrDirectLoop
    rw [if_pos hbig, hfl]
    simp only
    rw [if_neg hc2, hchunklen]
    rw [Nat.sub_self]
    unfold rbrDirectLoop
    rw [if_neg (show ¬ BUFSZ < 0 by simp)]
    unfold rbrFillLoop
    rw [if_pos rfl]
    exact ⟨⟨[] ++ c.sockIn.take len, rfl⟩, rfl⟩

/-- C10 witness: at a concrete connection with a failing socket write
and buffered outbound bytes, `readbuf_fill` succeeds anyway. -/
theorem C10_flush_error_ignored_witness :
    (readbufFill
      { sockIn := [7, 8], sockOut := [], readBuf := [], readPtr := 0,
        writeBuf := [1, 2, 3], wFail := true }).1 = .ok () ∧
    (readbufFill
      { sockIn := [7, 8], sockOut := [], readBuf := [], readPtr := 0,
        writeBuf := [1, 2, 3], wFail := true }).2.1.writeBuf = [1, 2, 3] :=
  (C10_flush_error_ignored
    { sockIn := [7, 8], sockOut := [], readBuf := [], readPtr := 0,
      writeBuf := [1, 2, 3], wFail := true }
    rfl (by decide) rfl).1 (by decide)

/-! ## Claim C3: dispatcher error handling -/

/-- C3 (counterexample): a handler returns a plain (non-`CMD_ERR`)
error while `pass_through_errors` is **not** set; the claim says a
failure response is written and the loop continues, but the dispatcher
returns the error immediately (`else if (err) return err;`), writing no
response bytes at all. -/
theorem C3_counterexample :
    handleCommands 3 [⟨[112, 105, 110, 103], fun _ => [⟨42, [109], [102], 7⟩], false⟩]
      false [40, 32, 112, 105, 110, 103, 32, 40, 32, 41, 32, 41, 32] [] =
    (.error (.handler [⟨42, [109], [102], 7⟩]), []) := rfl

/-- C3 (amended): for every dispatcher iteration whose command tuple
reads as `(w, params)` and whose table lookup finds entry `en` with
`en.handler params = r :: t`: when `r` is not the `CMD_ERR` sentinel
the error propagates out of the loop immediately, with no failure
response written, regardless of `pass_through_errors`; when `r` is the
sentinel it is unwrapped to its cause `t`: an empty cause continues the
loop silently, a non-empty cause is written as a failure response and
then propagates exactly when `pass_through_errors` is set (a terminal
entry otherwise ends the loop). -/
theorem C3_dispatcher_errors (f : Nat) (cmds : List CmdEntry) (pt : Bool)
    (input out : List Nat) (w : List Nat) (params : List Item) (rest : List Nat)
    (en : CmdEntry) (r : ErrRec) (t : List ErrRec)
    (hread : readItemTop (input.length + 1) input = .ok (.list [.word w, .list params], rest))
    (hfind : cmds.find? (fun e => e.name == w) = some en)
    (hh : en.handler params = r :: t) :
    (r.aprErr ≠ SVN_ERR_RA_SVN_CMD_ERR →
      handleCommands (f + 1) cmds pt input out = (.error (.handler (r :: t)), out)) ∧
    (r.aprErr = SVN_ERR_RA_SVN_CMD_ERR → t = [] →
      handleCommands (f + 1) cmds pt input out =
        if en.terminate then (.ok (), out) else handleCommands f cmds pt rest out) ∧
    (r.aprErr = SVN_ERR_RA_SVN_CMD_ERR → t ≠ [] →
      handleCommands (f + 1) cmds pt input out =
        if pt then (.error (.handler t), out ++ writeCmdFailure t)
        else if en.terminate then (.ok (), out ++ writeCmdFailure t)
        else handleCommands f cmds pt rest (out ++ writeCmdFailure t)) := by
  have hvp : vparseTuple [Item.word w, Item.list params] [119, 108] =
      .ok [.word w, .list params] := by
    simp [vparseTuple, tupMatch, Option.map]
  refine ⟨?_, ?_, ?_⟩
  · intro hne
    rw [handleCommands, hread]
    simp only [hvp, hfind, hh]
    rw [if_neg hne]
  · intro hc ht
    subst ht
    rw [handleCommands, hread]
    simp only [hvp, hfind, hh]
    rw [if_pos hc]
  · intro hc ht
    obtain ⟨r2, t2, rfl⟩ : ∃ r2 t2, t = r2 :: t2 := by
      cases t with
      | nil => exact absurd rfl ht
      | cons a b => exact ⟨a, b, rfl⟩
    rw [handleCommands, hread]
    simp only [hvp, hfind, hh]
    rw [if_pos hc]

/-- C3 witness: with `pass_through_errors` set, a concrete non-sentinel
handler error propagates with nothing written. -/
theorem C3_dispatcher_errors_witness :
    handleCommands 3 [⟨[112, 105, 110, 103], fun _ => [⟨42, [109], [102], 7⟩], true⟩]
      true [40, 32, 112, 105, 110, 103, 32, 40, 32, 41, 32, 41, 32] [32] =
    (.error (.handler [⟨42, [109], [102], 7⟩]), [32]) :=
  (C3_dispatcher_errors 2 [⟨[112, 105, 110, 103], fun _ => [⟨42, [109], [102], 7⟩], true⟩]
    true [40, 32, 112, 105, 110, 103, 32, 40, 32, 41, 32, 41, 32] [32]
    [112, 105, 110, 103] [] [] ⟨[112, 105, 110, 103], fun _ => [⟨42, [109], [102], 7⟩], true⟩
    ⟨42, [109], [102], 7⟩ [] rfl rfl rfl).1 (by decide)
